import Mathlib

/-!
Verification development for the Plex NFO updater script
(src/plex-nfo-updater.py).

The Python source is shallowly embedded: every definition below
translates a function (or an inlined block) of the script.  Plex
objects are modelled as records of optional attributes (duck typing:
an absent attribute is `none` at the outer `Option` layer); Python
exceptions that escape a function are modelled with `Except`;
Python truthiness of strings/ints/options is spelled out explicitly
at each use site, mirroring the exact expression in the source.

Unicode library calls (`unicodedata.normalize("NFKD", s)`,
`unicodedata.combining`, `str.casefold`, `str.lower`, `str.strip`)
are modelled character-wise for the repertoire exercised by the
theorems: ASCII case mapping, the whitespace characters of the
regex class, and an explicit NFKD table containing the decomposing
characters used in the proofs (acute accents and e-acute).  The
table is transitively closed, as real NFKD data is.
-/

namespace PlexNfo

/-- Whitespace test used to model Python `str.strip()` and the regex
class backslash-s (space, tab, newline, carriage return, vertical tab,
form feed). -/
def pyWS (c : Char) : Bool :=
  c = ' ' || c = '\t' || c = '\n' || c = '\r' || c = '\x0b' || c = '\x0c'

/-- Model of Python `str.strip()` on a character list: drop whitespace
from both ends. -/
def pyStripL (l : List Char) : List Char :=
  ((l.dropWhile pyWS).reverse.dropWhile pyWS).reverse

/-- Model of Python `str.strip()`. -/
def pyStrip (s : String) : String :=
  String.mk (pyStripL s.data)

/-- ASCII case-mapping table modelling `str.lower` / `str.casefold`
on the repertoire exercised here. -/
def lowerPairs : List (Char × Char) :=
  [('A', 'a'), ('B', 'b'), ('C', 'c'), ('D', 'd'), ('E', 'e'), ('F', 'f'),
   ('G', 'g'), ('H', 'h'), ('I', 'i'), ('J', 'j'), ('K', 'k'), ('L', 'l'),
   ('M', 'm'), ('N', 'n'), ('O', 'o'), ('P', 'p'), ('Q', 'q'), ('R', 'r'),
   ('S', 's'), ('T', 't'), ('U', 'u'), ('V', 'v'), ('W', 'w'), ('X', 'x'),
   ('Y', 'y'), ('Z', 'z')]

/-- Character-wise model of `str.casefold` (as invoked inside
`_normalize`). -/
def caseFoldChar (c : Char) : Char :=
  (lowerPairs.lookup c).getD c

/-- Character-wise model of `str.lower` (used for tag dedup, noise
keywords and the startswith bonus).  On the modelled repertoire it
agrees with `str.casefold`. -/
def pyLowerChar (c : Char) : Char :=
  caseFoldChar c

/-- Model of Python `str.lower()`. -/
def pyLowerS (s : String) : String :=
  String.mk (s.data.map pyLowerChar)

/-- Model of `unicodedata.normalize("NFKD", str(c))` character-wise.
The table lists the decomposing characters used by the development
(U+00B4 ACUTE ACCENT, U+0384 GREEK TONOS, U+00E9/U+00C9 e-acute);
all other characters decompose to themselves.  The table is
transitively closed, like the real NFKD data. -/
def nfkdChar (c : Char) : List Char :=
  if c = '´' then [' ', '́']
  else if c = '΄' then [' ', '́']
  else if c = 'é' then ['e', '́']
  else if c = 'É' then ['E', '́']
  else [c]

/-- Model of `unicodedata.combining ch != 0` for the modelled
repertoire: U+0301 COMBINING ACUTE ACCENT is the only combining mark
appearing in decompositions of the table. -/
def combiningChar (c : Char) : Bool :=
  c = '́'

/-- The `_normalize` helper of `search_plex_for_media_by_title`,
lines 505-517 of the source, for string input: strip, NFKD-decompose,
drop combining marks, casefold. -/
def pyNormalize (s : String) : String :=
  String.mk
    (((((pyStripL s.data).map nfkdChar).flatten).filter
        (fun c => !combiningChar c)).map caseFoldChar)

/-- The `_normalize` helper on an optional value (the source accepts
`None`, returning the empty string; other inputs go through `str`,
the identity on strings). -/
def pyNormalizeOpt : Option String → String
  | none => ""
  | some s => pyNormalize s

/-- Separator class of the tag-splitting regex and of the combined-tag
check: comma, slash, pipe, semicolon. -/
def isSep (c : Char) : Bool :=
  c = ',' || c = '/' || c = '|' || c = ';'

/-- Decimal digit test for the trailing-year regex. -/
def isDigitChar (c : Char) : Bool :=
  '0' ≤ c && c ≤ '9'

/-- Opening punctuation class of the trailing-year regex:
dash, parenthesis, bracket, brace. -/
def isYearOpen (c : Char) : Bool :=
  c = '-' || c = '(' || c = '[' || c = '\x7b'

/-- Closing punctuation class of the trailing-year regex. -/
def isYearClose (c : Char) : Bool :=
  c = ')' || c = ']' || c = '\x7d'

/-- Numeric value of a digit character. -/
def digitVal (c : Char) : Nat :=
  c.toNat - '0'.toNat

/-- Model of lines 496-502 of the source: search for the anchored
regex (whitespace, opener, whitespace, four digits, optional closer,
end of string), parse the digit group as the year and remove the whole
match (then strip).  The parse works from the end of the string:
an optional closing bracket, then exactly four digits, then optional
whitespace, then one opening character, then optional whitespace. -/
def extractTrailingYear (s : String) : String × Option Nat :=
  let r := s.data.reverse
  -- optional single closing bracket at the very end
  let r1 := match r with
            | c :: rest => if isYearClose c then rest else r
            | [] => r
  match r1 with
  | d1 :: d2 :: d3 :: d4 :: rest =>
    if isDigitChar d1 && isDigitChar d2 && isDigitChar d3 && isDigitChar d4 then
      -- a fifth digit directly before the group can never satisfy the
      -- opener test below, matching the regex engine
      let rest2 := rest.dropWhile pyWS
      match rest2 with
      | o :: rest3 =>
        if isYearOpen o then
          let year := digitVal d4 * 1000 + digitVal d3 * 100 +
                      digitVal d2 * 10 + digitVal d1
          (String.mk (pyStripL ((rest3.dropWhile pyWS).reverse)), some year)
        else (s, none)
      | [] => (s, none)
    else (s, none)
  | _ => (s, none)

/-- Does the second list start with the first one? -/
def startsWithL : List Char → List Char → Bool
  | [], _ => true
  | _ :: _, [] => false
  | p :: ps, c :: cs => p = c && startsWithL ps cs

/-- Contiguous-sublist test on character lists. -/
def containsSub (hay pat : List Char) : Bool :=
  match hay with
  | [] => pat.isEmpty
  | _ :: t => startsWithL pat hay || containsSub t pat

/-- Model of Python `pat in hay` on strings (substring test). -/
def pyInStr (pat hay : String) : Bool :=
  containsSub hay.data pat.data

/-- Model of Python `hay.startswith(pre)`. -/
def pyStartsWith (hay pre : String) : Bool :=
  startsWithL pre.data hay.data

/-- A Plex object (search candidate, parent item, season, episode...),
modelled as a duck-typed bag of optional attributes: `none` at the
outer layer means the attribute is absent (`getattr` returns the
default).  `strRepr` stands for `str(obj)`, used only when the object
has no `ratingKey` attribute.  Rating keys are kept as the strings the
source compares them through (`str(...)`). -/
structure PlexObj where
  title : Option String := none
  name : Option String := none
  year : Option Nat := none
  ctype : Option String := none
  ratingKey : Option String := none
  parentRatingKey : Option String := none
  grandparentRatingKey : Option String := none
  key : Option String := none
  parentTitle : Option String := none
  grandparentTitle : Option String := none
  strRepr : String := ""
deriving DecidableEq, Repr

/-- Python truthiness of an optional string attribute
(`None` and the empty string are falsy). -/
def pyTruthyS : Option String → Bool
  | none => false
  | some s => s ≠ ""

/-- Python `a or b` for optional string attributes. -/
def pyOr2 (a b : Option String) : Option String :=
  if pyTruthyS a then a else b

/-- Line 640 of the source:
`getattr(cand, "title", None) or getattr(cand, "name", None) or ""`. -/
def candTitleOf (c : PlexObj) : String :=
  (pyOr2 (pyOr2 c.title c.name) (some "")).getD ""

/-- Line 643: `int(cand_year) if cand_year else None` — a missing or
zero (falsy) year becomes `None`. -/
def pyCandYearInt : Option Nat → Option Nat
  | none => none
  | some y => if y = 0 then none else some y

/-- Python `str` on an optional integer attribute (`str(None)` is
the string `None`). -/
def pyStrOptNat : Option Nat → String
  | none => "None"
  | some n => toString n

/-- The `_is_child_of_parent` helper, lines 526-557 of the source.
The `try/except` wrapper is not modelled: every operation inside is
total here. -/
def is_child_of_parent (cand parentObj : PlexObj) : Bool :=
  match parentObj.ratingKey with
  | some rk =>
      (pyTruthyS cand.parentRatingKey && (cand.parentRatingKey.getD "" = rk))
      || (pyTruthyS cand.grandparentRatingKey
          && (cand.grandparentRatingKey.getD "" = rk))
      || (pyTruthyS cand.key && pyInStr rk (cand.key.getD ""))
      || (pyTruthyS cand.parentTitle
          && pyNormalizeOpt cand.parentTitle
             = pyNormalize (parentObj.title.getD ""))
  | none =>
      (pyTruthyS cand.parentTitle
       && pyNormalizeOpt cand.parentTitle = pyNormalize parentObj.strRepr)
      || (pyTruthyS cand.grandparentTitle
          && pyNormalizeOpt cand.grandparentTitle
             = pyNormalize parentObj.strRepr)

/-- Lines 562-576: does the parent item itself match the search
title/year?  (`_normalize(parent_title) == norm_search and
(year is None or str(parent_year) == str(year))`). -/
def parentSelfMatch (normSearch : String) (year : Option Nat)
    (p : PlexObj) : Bool :=
  pyNormalizeOpt p.title = normSearch
  && (match year with
      | none => true
      | some y => pyStrOptNat p.year = toString y)

/-- The fixed noise keyword tuple of line 632. -/
def noiseKeywords : List String :=
  ["sample", "trailer", "teaser", "promo", "deleted scene",
   "behind the scenes"]

/-- Lines 645-659 of the source: the title/year base score of one
candidate (before the noise-keyword penalty and the parent bonus). -/
def baseScore (normSearch rawTitle : String) (year : Option Nat)
    (candTitle : String) (candYearInt : Option Nat) : Int :=
  if pyNormalize candTitle = normSearch then
    -- `if year and cand_year_int == year: score = 100`
    if (match year with
        | some y => decide (y ≠ 0) && decide (candYearInt = some y)
        | none => false) then 100 else 99
  else if pyInStr normSearch (pyNormalize candTitle) then
    20 + (if pyStartsWith (pyLowerS candTitle) (pyLowerS rawTitle)
          then 5 else 0)
  else 0

/-- One entry of the `scored` list: `(score, idx, cand,
norm_cand_title, cand_year_int)`. -/
structure ScoredEntry where
  score : Int
  idx : Nat
  cand : PlexObj
  normTitle : String
  yearInt : Option Nat
deriving DecidableEq, Repr

/-- Lines 645-667: the full score of one kept candidate (base score,
noise-keyword penalty, parent bonus, clamp at zero). -/
def candScore (normSearch rawTitle : String) (year : Option Nat)
    (parent : Option PlexObj) (cand : PlexObj) : Int :=
  let s0 := baseScore normSearch rawTitle year (candTitleOf cand)
              (pyCandYearInt cand.year)
  let s1 := if noiseKeywords.any
                 (fun k => pyInStr k (pyLowerS (candTitleOf cand)))
            then max (s0 - 50) 1 else s0
  let s2 := match parent with
            | some p => if is_child_of_parent cand p then s1 + 30 else s1
            | none => s1
  max 0 s2

/-- The loop body of lines 634-668: either the candidate is excluded
by the media-type filter (`none`) or it is scored. -/
def scoreEntry (normSearch rawTitle : String) (year : Option Nat)
    (mediaType : Option String) (parent : Option PlexObj)
    (i : Nat) (cand : PlexObj) : Option ScoredEntry :=
  -- `if media_type and cand_type and media_type != cand_type: continue`
  if pyTruthyS mediaType && pyTruthyS cand.ctype
     && !decide (mediaType = cand.ctype) then none
  else
    some ⟨candScore normSearch rawTitle year parent cand, i, cand,
          pyNormalize (candTitleOf cand), pyCandYearInt cand.year⟩

/-- The scoring loop (`for idx, cand in enumerate(candidates_to_score)`)
starting at index `i`. -/
def buildScored (normSearch rawTitle : String) (year : Option Nat)
    (mediaType : Option String) (parent : Option PlexObj)
    (i : Nat) : List PlexObj → List ScoredEntry
  | [] => []
  | c :: cs =>
    match scoreEntry normSearch rawTitle year mediaType parent i c with
    | none => buildScored normSearch rawTitle year mediaType parent (i + 1) cs
    | some e =>
        e :: buildScored normSearch rawTitle year mediaType parent (i + 1) cs

/-- The sort key of line 687: `key=lambda x: (-x[0], x[1])`, i.e.
descending score, ties by ascending original index. -/
def keyLE (a b : ScoredEntry) : Prop :=
  b.score < a.score ∨ (a.score = b.score ∧ a.idx ≤ b.idx)

instance : DecidableRel keyLE := fun a b => by
  unfold keyLE; infer_instance

instance : IsTotal ScoredEntry keyLE :=
  ⟨by intro a b; unfold keyLE; omega⟩

instance : IsTrans ScoredEntry keyLE :=
  ⟨by intro a b c; unfold keyLE; omega⟩

/-- Line 687: `scored.sort(key=lambda x: (-x[0], x[1]))`.  The key is
a total order with no duplicate keys (indices are distinct), so any
correct sort computes the same list as Python's stable sort. -/
def sortScored (l : List ScoredEntry) : List ScoredEntry :=
  List.insertionSort keyLE l

/-- The dictionary returned by `search_plex_for_media_by_title`. -/
structure SearchResult where
  candidates : List PlexObj
  best_match : Option PlexObj
  best_score : Int
  is_confident : Bool
  nb_excellent_match : Nat
deriving DecidableEq, Repr

/-- The empty result dictionary (lines 485-491, 620-626, 676-682). -/
def emptySearchResult : SearchResult :=
  { candidates := [], best_match := none, best_score := 0,
    is_confident := false, nb_excellent_match := 0 }

/-- Lines 631-716: score the collected candidates, sort, and build the
result dictionary. -/
def searchScore (normSearch rawTitle : String) (year : Option Nat)
    (mediaType : Option String) (parent : Option PlexObj)
    (cands : List PlexObj) : SearchResult :=
  let scored := sortScored
    (buildScored normSearch rawTitle year mediaType parent 0 cands)
  match scored with
  | [] => emptySearchResult
  | best :: _ =>
    { candidates := scored.map (·.cand),
      best_match := some best.cand,
      best_score := best.score,
      is_confident := decide (99 ≤ best.score),
      nb_excellent_match := scored.countP (fun e => decide (99 ≤ e.score)) }

/-- The function `search_plex_for_media_by_title`, lines 472-716.
The candidate collection itself (Plex search or scoped
season/episode enumeration) is external network state and is passed
in as `cands`; everything after collection is modelled. -/
def search_plex_for_media_by_title (mediaTitle : String)
    (mediaType : Option String) (parent : Option PlexObj)
    (cands : List PlexObj) : SearchResult :=
  let raw0 := pyStrip mediaTitle
  if raw0 = "" then emptySearchResult
  else
    let pr := extractTrailingYear raw0
    let rawTitle := pr.1
    let year := pr.2
    let normSearch := pyNormalize rawTitle
    match parent with
    | some p =>
      if parentSelfMatch normSearch year p then
        { candidates := [p], best_match := some p, best_score := 100,
          is_confident := true, nb_excellent_match := 1 }
      else searchScore normSearch rawTitle year mediaType (some p) cands
    | none => searchScore normSearch rawTitle year mediaType none cands

/-- Whether the parent self-match shortcut of lines 562-576 fires for
a given call. -/
def shortcutFires (mediaTitle : String) (parent : Option PlexObj) : Bool :=
  match parent with
  | none => false
  | some p =>
    let raw0 := pyStrip mediaTitle
    if raw0 = "" then false
    else
      let pr := extractTrailingYear raw0
      parentSelfMatch (pyNormalize pr.1) pr.2 p

/-- A Python exception escaping a modelled function. -/
inductive PyErr where
  /-- A `TypeError`, e.g. applying `len` to an `int`. -/
  | typeError
deriving DecidableEq, Repr

/-- The function `choose_plex_item`, lines 720-751: prompt the user to
pick among candidates.  `userPick` is the (validated) number the user
eventually enters in `prompt_choice`, as an index into the display
list; the last display entry is the added Skip option.  The user's
quit command terminates the process and is outside the model. -/
def choose_plex_item (candidates : List PlexObj) (userPick : Nat) :
    Option PlexObj :=
  if candidates = [] then none
  else if candidates.length = 1 then candidates.head?
  else
    -- display has one extra Skip entry at index candidates.length
    if userPick = candidates.length then none
    else candidates[userPick]?

/-- The function `resolve_plex_item`, lines 397-467.  The candidate
collection used by the inner search call is passed through, as in
`search_plex_for_media_by_title`.  In interactive mode, the branch
guard of line 449 evaluates `len(results["nb_excellent_match"])` —
`len` of an `int` — which raises a `TypeError`; the model returns
that error exactly where the source raises. -/
def resolve_plex_item (mediaTitle : String) (mediaType : Option String)
    (automaticMode : Bool) (parent : Option PlexObj)
    (cands : List PlexObj) (userPick : Nat) :
    Except PyErr (Option PlexObj) :=
  let results := search_plex_for_media_by_title mediaTitle mediaType parent cands
  if results.candidates = [] then
    .ok none
  else if automaticMode then
    if results.is_confident && results.nb_excellent_match = 1 then
      .ok results.best_match
    else
      -- both remaining automatic branches only log and leave
      -- plex_item as None
      .ok none
  else
    if results.is_confident && results.nb_excellent_match = 1 then
      .ok results.best_match
    else if results.nb_excellent_match > 1 then
      .ok (choose_plex_item
            (results.candidates.take results.nb_excellent_match) userPick)
    else
      -- line 449: `elif len(results["nb_excellent_match"]) == 1:`
      -- raises TypeError (len of an int); the remaining else branch
      -- is unreachable
      .error .typeError

/-! ## The diff and update planner (`update_plex_item_fields`) -/

/-- An element of a list-valued NFO field: a scalar string or a nested
structure (dictionary) such as an actor element; dictionary values of
interest (`tag`, `name`) are strings or `None`. -/
inductive NfoItem where
  | str (s : String)
  | obj (pairs : List (String × Option String))
deriving DecidableEq, Repr

/-- A value of the flattened NFO dictionary produced by
`parse_nfo_to_dict`: `None` (an empty element), a string, a nested
dictionary, or a list of the former. -/
inductive NfoValue where
  | null
  | str (s : String)
  | obj (pairs : List (String × Option String))
  | list (items : List NfoItem)
deriving DecidableEq, Repr

/-- Joining with a separator (Python `", ".join`). -/
def joinSep (sep : String) : List String → String
  | [] => ""
  | [x] => x
  | x :: xs => x ++ sep ++ joinSep sep xs

/-- Python `repr` of a string or `None` (quote/escape corner cases of
`repr` are not exercised by the theorems). -/
def pyReprOptStr : Option String → String
  | none => "None"
  | some s => "'" ++ s ++ "'"

/-- Python `str` of a flat dictionary. -/
def pyReprPairs (ps : List (String × Option String)) : String :=
  "\x7b" ++
    joinSep ", " (ps.map (fun p => "'" ++ p.1 ++ "': " ++ pyReprOptStr p.2))
  ++ "\x7d"

/-- Python `str` of a list element. -/
def pyReprItem : NfoItem → String
  | .str s => "'" ++ s ++ "'"
  | .obj ps => pyReprPairs ps

/-- Python `str(nfo_value)` as used in the scalar-field branch
(line 987). -/
def pyStrOfNfo : NfoValue → String
  | .null => "None"
  | .str s => s
  | .obj ps => pyReprPairs ps
  | .list xs => "[" ++ joinSep ", " (xs.map pyReprItem) ++ "]"

/-- The emptiness test of line 862:
`nfo_value is None or (isinstance(nfo_value, (str, list, dict)) and not nfo_value)`. -/
def nfoEmpty : NfoValue → Bool
  | .null => true
  | .str s => s = ""
  | .obj ps => ps.isEmpty
  | .list xs => xs.isEmpty

/-- The `SUPPORTED_FIELD_MAP` table, lines 135-162: NFO tag to
(`rest_field`, `is_tag`). -/
def SUPPORTED_FIELD_MAP : List (String × String × Bool) :=
  [("title",         ("title",                 false)),
   ("originaltitle", ("originalTitle",         false)),
   ("plot",          ("summary",               false)),
   ("summary",       ("summary",               false)),
   ("overview",      ("summary",               false)),
   ("studio",        ("studio",                false)),
   ("premiered",     ("originallyAvailableAt", false)),
   ("year",          ("year",                  false)),
   ("mpaa",          ("contentRating",         false)),
   ("contentrating", ("contentRating",         false)),
   ("rating",        ("rating",                false)),
   ("genres",        ("genres",                true)),
   ("genre",         ("genres",                true)),
   ("country",       ("countries",             true)),
   ("countries",     ("countries",             true)),
   ("directors",     ("directors",             true)),
   ("director",      ("directors",             true)),
   ("writers",       ("writers",               true)),
   ("writer",        ("writers",               true)),
   ("actors",        ("actors",                true)),
   ("actor",         ("actors",                true))]

/-- The `add_tag` helper of lines 873-881: ignore falsy names, strip,
keep non-empty results (appending preserves order). -/
def add_tag (acc : List String) (name : String) : List String :=
  if name = "" then acc
  else
    let clean := pyStrip name
    if clean = "" then acc else acc ++ [clean]

/-- `add_tag` applied to a possibly missing (`None`) name. -/
def addTagOpt (acc : List String) : Option String → List String
  | none => acc
  | some n => add_tag acc n

/-- Line 894 / 906: `item.get("tag") or item.get("name")` on a nested
dictionary. -/
def getTagName (ps : List (String × Option String)) : Option String :=
  pyOr2 ((ps.lookup "tag").join) ((ps.lookup "name").join)

/-- Splitting worker: `acc` holds the current piece reversed. -/
def splitSepsL (acc : List Char) : List Char → List String
  | [] => [String.mk acc.reverse]
  | c :: cs =>
      if isSep c then String.mk acc.reverse :: splitSepsL [] cs
      else splitSepsL (c :: acc) cs

/-- Model of `re.split(r'[,/|;]+', s)`: split on separator characters.
The regex collapses separator runs while this split emits empty
pieces between adjacent separators; `add_tag` discards empty pieces,
so the resulting tag list is identical. -/
def splitSeps (s : String) : List String :=
  splitSepsL [] s.data

/-- Lines 884-907: gather the raw tag names of one NFO value. -/
def collectTagNames : NfoValue → List String
  | .null => []
  | .str s => (splitSeps s).foldl add_tag []
  | .obj ps => addTagOpt [] (getTagName ps)
  | .list xs =>
      xs.foldl
        (fun acc it =>
          match it with
          | .str s => (splitSeps s).foldl add_tag acc
          | .obj ps => addTagOpt acc (getTagName ps))
        []

/-- Lines 909-923: case-insensitive order-preserving dedup of the raw
tag names (strip again, drop empties, first-seen casing wins).
`seen` is the set of lowered names already kept. -/
def dedupCI (seen : List String) : List String → List String
  | [] => []
  | t :: ts =>
    let clean := pyStrip t
    if clean = "" then dedupCI seen ts
    else
      let low := pyLowerS clean
      if low ∈ seen then dedupCI seen ts
      else clean :: dedupCI (low :: seen) ts

/-- One element of a Plex tag collection: the service may return plain
strings or tag objects carrying `tag`/`name` attributes. -/
inductive TagEntry where
  | str (s : String)
  | obj (tag name : Option String)
deriving DecidableEq, Repr

/-- Lines 931-946: normalize the current Plex tags of a collection to
trimmed non-empty strings. -/
def extractExisting : List TagEntry → List String
  | [] => []
  | .str t :: rest =>
      let c := pyStrip t
      (if c = "" then [] else [c]) ++ extractExisting rest
  | .obj tg nm :: rest =>
      match pyOr2 tg nm with
      | none => extractExisting rest
      | some n =>
          if n = "" then extractExisting rest
          else
            let c := pyStrip n
            (if c = "" then [] else [c]) ++ extractExisting rest

/-- Lines 948-959: dedup of the existing tags, preserving order,
keyed on `t.lower()`. -/
def dedupLower (seen : List String) : List String → List String
  | [] => []
  | t :: ts =>
    let tl := pyLowerS t
    if tl ∈ seen then dedupLower seen ts
    else t :: dedupLower (tl :: seen) ts

/-- Line 963-972: drop tags still containing a separator character
(combined tokens such as Action/Adventure). -/
def refineTags (l : List String) : List String :=
  l.filter (fun t => !t.data.any isSep)

/-- A planned update operation. -/
inductive UpdateOp where
  /-- A scalar field edit: field, new value, old value. -/
  | field (restField value oldValue : String)
  /-- A tag-collection update: field, new tags, existing tags. -/
  | tag (restField : String) (newTags existingTags : List String)
deriving DecidableEq, Repr

/-- The rest field an operation addresses. -/
def UpdateOp.restFieldOf : UpdateOp → String
  | .field rf _ _ => rf
  | .tag rf _ _ => rf

/-- The catalog entity being updated: present scalar attributes
(value `none` models a present attribute whose value is Python
`None`), present tag collections, and the set of locked fields
(`isLocked`; a lock query that raises is already folded into `false`
by the source's `except` arm). -/
structure PlexItem where
  scalarAttrs : List (String × Option String) := []
  tagAttrs : List (String × Option (List TagEntry)) := []
  lockedFields : List String := []
deriving DecidableEq, Repr

/-- Line 844: `getattr(plex_item, "title", "Unknown Item")` as it
appears in log/stat messages. -/
def itemTitle (item : PlexItem) : String :=
  match item.scalarAttrs.lookup "title" with
  | none => "Unknown Item"
  | some none => "None"
  | some (some v) => v

/-- Line 1000: `plex_item.isLocked(rest_field)` (exceptions are folded
to `False` by the source). -/
def isLocked (item : PlexItem) (f : String) : Bool :=
  f ∈ item.lockedFields

/-- Lines 857-1014: the planning decision for a single NFO key/value
pair — `none` when nothing is planned for it. -/
def planEntry (allowUnlock : Bool) (item : PlexItem)
    (p : String × NfoValue) : Option UpdateOp :=
  match SUPPORTED_FIELD_MAP.lookup p.1 with
  | none => none
  | some (restField, isTag) =>
    if nfoEmpty p.2 then none
    else if isTag then
      let uniqueTags := dedupCI [] (collectTagNames p.2)
      if uniqueTags = [] then none
      else
        -- `getattr(plex_item, rest_field, []) or []`
        let plexAttr := ((item.tagAttrs.lookup restField).join).getD []
        let existingTags := dedupLower [] (extractExisting plexAttr)
        let refined := refineTags uniqueTags
        if refined = [] then none
        else some (.tag restField refined existingTags)
    else
      let newValue := pyStrip (pyStrOfNfo p.2)
      -- `getattr(plex_item, rest_field, "") or ""`
      let currentValue := pyStrip (((item.scalarAttrs.lookup restField).join).getD "")
      if newValue = currentValue then none
      else if isLocked item restField && !allowUnlock then none
      else some (.field restField newValue currentValue)

/-- The planning loop over `nfo_data.items()` (dictionary order =
insertion order, modelled by the association list). -/
def planOps (allowUnlock : Bool) (item : PlexItem)
    (nfo : List (String × NfoValue)) : List UpdateOp :=
  nfo.filterMap (planEntry allowUnlock item)

/-- Python `rest.rstrip('s')` as used at line 1045: strip all
trailing s characters. -/
def rstripS (s : String) : String :=
  String.mk (((s.data.reverse).dropWhile (fun c => c = 's')).reverse)

/-- Lines 1017-1055, the validation pass: drop operations whose target
attribute is absent (the `getattr` sentinel); tag operations fall back
to the singular attribute name (`rest.rstrip('s')`).  Returns the
validated operations and the `skipped_missing_field` messages. -/
def validateOps (item : PlexItem) :
    List UpdateOp → List UpdateOp × List String
  | [] => ([], [])
  | op :: rest =>
    let r := validateOps item rest
    match op with
    | .field rf _ _ =>
      if (item.scalarAttrs.lookup rf).isNone then
        (r.1, (itemTitle item ++ ": Missing field '" ++ rf ++ "'") :: r.2)
      else (op :: r.1, r.2)
    | .tag rf _ _ =>
      if (item.tagAttrs.lookup rf).isNone then
        if (item.tagAttrs.lookup (rstripS rf)).isNone then
          (r.1, (itemTitle item ++ ": Missing tag collection '" ++ rf ++ "'")
                :: r.2)
        else (op :: r.1, r.2)
      else (op :: r.1, r.2)

/-- Replace the binding of a key in an association list (attribute
assignment on a Python object: one namespace slot per name). -/
def setAssoc {α : Type} (l : List (String × α)) (k : String) (v : α) :
    List (String × α) :=
  match l with
  | [] => [(k, v)]
  | (k', v') :: rest =>
      if k' = k then (k, v) :: rest else (k', v') :: setAssoc rest k v

/-- Applying one validated operation to the catalog entity, as the
live executor commits it: a field edit stores the new value; a tag
update under replace semantics leaves the collection holding exactly
the new tags (as plain strings). -/
def applyOp (item : PlexItem) : UpdateOp → PlexItem
  | .field rf v _ =>
      { item with scalarAttrs := setAssoc item.scalarAttrs rf (some v) }
  | .tag rf new _ =>
      { item with tagAttrs := setAssoc item.tagAttrs rf
                    (some (new.map TagEntry.str)) }

/-- Applying a validated plan in order. -/
def applyPlan (item : PlexItem) (ops : List UpdateOp) : PlexItem :=
  ops.foldl applyOp item

/-- Run configuration consumed by `update_plex_item_fields`. -/
structure Config where
  allowUnlock : Bool
  dryRun : Bool
  alwaysUpdateArt : Bool
deriving DecidableEq, Repr

/-- Observable outcome of one `update_plex_item_fields` call: the
aggregator messages it appends and whether it invokes
`update_plex_item_artwork`. -/
structure UpdateOutcome where
  skipped : List String
  updated : List String
  failed : List String
  missingField : List String
  artworkInvoked : Bool
deriving DecidableEq, Repr

/-- The control flow of `update_plex_item_fields`, lines 837-1195:
plan, validate, then branch on empty plan / dry run / live commit.
`saveOk` tells whether the batched commit succeeds (a network
operation); on failure the `except` arm records the entity as failed.
Artwork is invoked at the end iff edits were applied or the
always-update-artwork override is set; the empty-plan and dry-run
branches return earlier with their own artwork decision. -/
def update_plex_item_fields (cfg : Config) (item : PlexItem)
    (nfo : List (String × NfoValue)) (saveOk : Bool) : UpdateOutcome :=
  let planned := planOps cfg.allowUnlock item nfo
  let v := validateOps item planned
  let validated := v.1
  if validated = [] then
    { skipped := [itemTitle item ++ ": No metadata changes required."],
      updated := [], failed := [], missingField := v.2,
      artworkInvoked := cfg.alwaysUpdateArt }
  else if cfg.dryRun then
    { skipped := [itemTitle item ++ ": Dry-run is activated."],
      updated := [], failed := [], missingField := v.2,
      artworkInvoked := true }
  else if saveOk then
    { skipped := [], updated := [itemTitle item], failed := [],
      missingField := v.2, artworkInvoked := true }
  else
    { skipped := [], updated := [],
      failed := [itemTitle item ++ ": Error while updating."],
      missingField := v.2, artworkInvoked := cfg.alwaysUpdateArt }

/-! ## Basic lemmas about the string model -/

theorem dropWhile_head_false {α} (p : α → Bool) :
    ∀ (l : List α) a t, l.dropWhile p = a :: t → p a = false := by
  intro l
  induction l with
  | nil => intro a t h; cases h
  | cons b l ih =>
    intro a t h
    by_cases hb : p b
    · rw [List.dropWhile_cons_of_pos hb] at h
      exact ih a t h
    · rw [List.dropWhile_cons_of_neg hb] at h
      cases h
      simpa using hb

theorem dropWhile_idem {α} (p : α → Bool) (l : List α) :
    (l.dropWhile p).dropWhile p = l.dropWhile p := by
  cases h : l.dropWhile p with
  | nil => rfl
  | cons a t =>
    rw [List.dropWhile_cons_of_neg]
    simp [dropWhile_head_false p l a t h]

theorem dropWhile_is_suffix {α} (p : α → Bool) :
    ∀ l : List α, ∃ t, t ++ l.dropWhile p = l := by
  intro l
  induction l with
  | nil => exact ⟨[], rfl⟩
  | cons a l ih =>
    by_cases ha : p a
    · obtain ⟨t, ht⟩ := ih
      exact ⟨a :: t, by rw [List.dropWhile_cons_of_pos ha]; simp [ht]⟩
    · exact ⟨[], by rw [List.dropWhile_cons_of_neg ha]; simp⟩

theorem pyStripL_idem (l : List Char) : pyStripL (pyStripL l) = pyStripL l := by
  unfold pyStripL
  set A := l.dropWhile pyWS with hA
  set B := (A.reverse).dropWhile pyWS with hB
  -- B.reverse is a prefix of A, so it has A's head (which fails pyWS)
  obtain ⟨t, ht⟩ := dropWhile_is_suffix pyWS A.reverse
  have hpre : A = B.reverse ++ t.reverse := by
    have := congrArg List.reverse ht
    simpa using this.symm
  have h1 : B.reverse.dropWhile pyWS = B.reverse := by
    cases hBr : B.reverse with
    | nil => rfl
    | cons a s =>
      rw [List.dropWhile_cons_of_neg]
      have hAhead : A.dropWhile pyWS = A := by
        rw [hA, dropWhile_idem]
      have hcons : A = a :: (s ++ t.reverse) := by rw [hpre, hBr]; simp
      have hfalse : pyWS a = false := by
        apply dropWhile_head_false pyWS A
        rw [hAhead, hcons]
      simp [hfalse]
  rw [h1]
  have h2 : (B.reverse).reverse.dropWhile pyWS = B := by
    rw [List.reverse_reverse, hB, dropWhile_idem]
  rw [h2]

theorem data_mk (l : List Char) : (String.mk l).data = l := rfl

theorem pyStrip_idem (s : String) : pyStrip (pyStrip s) = pyStrip s :=
  congrArg String.mk (pyStripL_idem s.data)

/-! ## Claim C5: idempotence of the title normalizer -/

/-- Characters stable under the modelled NFKD, combining filter and
casefold. -/
def stableChar (c : Char) : Prop :=
  nfkdChar c = [c] ∧ combiningChar c = false ∧ caseFoldChar c = c

theorem lookup_lowerPairs_mem :
    ∀ (ps : List (Char × Char)) (c d : Char), ps.lookup c = some d →
      (c, d) ∈ ps := by
  intro ps
  induction ps with
  | nil => intro c d h; cases h
  | cons p ps ih =>
    obtain ⟨p1, p2⟩ := p
    intro c d h
    rw [List.mem_cons]
    cases hpc : (c == p1) with
    | true =>
      have hd : p2 = d := by
        simpa [List.lookup, hpc] using h
      have hc : c = p1 := by simpa using hpc
      left
      rw [hc, hd]
    | false =>
      right
      apply ih
      simpa [List.lookup, hpc] using h

theorem caseFoldChar_cases (c : Char) :
    caseFoldChar c = c ∨ (c, caseFoldChar c) ∈ lowerPairs := by
  unfold caseFoldChar
  cases h : lowerPairs.lookup c with
  | none => left; rfl
  | some d =>
    right
    simpa [h] using lookup_lowerPairs_mem lowerPairs c d h

theorem lowerPairs_snd_stable :
    ∀ p ∈ lowerPairs, nfkdChar p.2 = [p.2] ∧ combiningChar p.2 = false ∧
      caseFoldChar p.2 = p.2 ∧ pyWS p.2 = false := by decide

theorem lowerPairs_fst_not_combining :
    ∀ p ∈ lowerPairs, combiningChar p.1 = false := by decide

theorem nfkd_out_stable :
    ∀ b c, c ∈ nfkdChar b → nfkdChar c = [c] := by
  intro b c hc
  by_cases h1 : b = '´'
  · subst h1; simp [nfkdChar] at hc
    rcases hc with h | h <;> subst h <;> decide
  · by_cases h2 : b = '΄'
    · subst h2; simp [nfkdChar, h1] at hc ⊢
      rcases hc with h | h <;> subst h <;> decide
    · by_cases h3 : b = 'é'
      · subst h3; simp [nfkdChar] at hc
        rcases hc with h | h <;> subst h <;> decide
      · by_cases h4 : b = 'É'
        · subst h4; simp [nfkdChar, h1, h2, h3] at hc
          rcases hc with h | h <;> subst h <;> decide
        · have hb : nfkdChar b = [b] := by simp [nfkdChar, h1, h2, h3, h4]
          rw [hb] at hc
          simp at hc
          subst hc
          exact hb

theorem nfkd_id_caseFold_stable (c : Char) (h : nfkdChar c = [c]) :
    nfkdChar (caseFoldChar c) = [caseFoldChar c] := by
  rcases caseFoldChar_cases c with heq | hmem
  · rw [heq]; exact h
  · exact (lowerPairs_snd_stable _ hmem).1

theorem caseFoldChar_idem (c : Char) :
    caseFoldChar (caseFoldChar c) = caseFoldChar c := by
  rcases caseFoldChar_cases c with heq | hmem
  · rw [heq, heq]
  · exact (lowerPairs_snd_stable _ hmem).2.2.1

theorem caseFoldChar_combining (c : Char) :
    combiningChar (caseFoldChar c) = combiningChar c := by
  rcases caseFoldChar_cases c with heq | hmem
  · rw [heq]
  · rw [(lowerPairs_snd_stable _ hmem).2.1]
    exact (lowerPairs_fst_not_combining _ hmem).symm

/-- Every character of a `pyNormalize` output satisfies `stableChar`. -/
theorem pyNormalize_chars_stable (s : String) :
    ∀ c ∈ (pyNormalize s).data, stableChar c := by
  intro c hc
  unfold pyNormalize at hc
  rw [data_mk] at hc
  simp only [List.mem_map] at hc
  obtain ⟨d, hd, hcd⟩ := hc
  simp only [List.mem_filter] at hd
  obtain ⟨hdmem, hdcomb⟩ := hd
  simp only [List.mem_flatten, List.mem_map] at hdmem
  obtain ⟨ds, ⟨b, _, hds⟩, hdds⟩ := hdmem
  subst hds
  have hstab : nfkdChar d = [d] := nfkd_out_stable b d hdds
  refine ⟨?_, ?_, ?_⟩
  · rw [← hcd]; exact nfkd_id_caseFold_stable d hstab
  · rw [← hcd, caseFoldChar_combining]
    simpa using hdcomb
  · rw [← hcd]; exact caseFoldChar_idem d

theorem pyNormalize_of_stable (l : List Char)
    (hstab : ∀ c ∈ l, stableChar c) :
    pyNormalize (String.mk l) = String.mk (pyStripL l) := by
  unfold pyNormalize
  rw [data_mk]
  have hsub : ∀ c ∈ pyStripL l, stableChar c := by
    intro c hc
    apply hstab
    unfold pyStripL at hc
    rw [List.mem_reverse] at hc
    obtain ⟨t1, ht1⟩ := dropWhile_is_suffix pyWS (l.dropWhile pyWS).reverse
    obtain ⟨t2, ht2⟩ := dropWhile_is_suffix pyWS l
    have : c ∈ (l.dropWhile pyWS).reverse := ht1 ▸ List.mem_append_right t1 hc
    rw [List.mem_reverse] at this
    exact ht2 ▸ List.mem_append_right t2 this
  congr 1
  have h1 : (pyStripL l).map nfkdChar = (pyStripL l).map (fun c => [c]) := by
    apply List.map_congr_left
    intro c hc
    exact (hsub c hc).1
  rw [h1]
  have h2 : ((pyStripL l).map (fun c => [c])).flatten = pyStripL l := by
    induction pyStripL l with
    | nil => rfl
    | cons a t ih => simp [ih]
  rw [h2]
  have h3 : (pyStripL l).filter (fun c => !combiningChar c) = pyStripL l := by
    apply List.filter_eq_self.2
    intro c hc
    rw [(hsub c hc).2.1]
    rfl
  rw [h3]
  have h4 : (pyStripL l).map caseFoldChar = (pyStripL l).map id := by
    apply List.map_congr_left
    intro c hc
    exact (hsub c hc).2.2
  rw [h4, List.map_id]

/-- C5 (amended): the normalizer is a total function with `None` and
the empty string mapping to the empty string, and a second application
computes exactly the strip of the first output — so it is idempotent
precisely on inputs whose normalized form carries no leading/trailing
whitespace (a compatibility decomposition such as U+00B4 to
space + combining acute can produce such whitespace). -/
theorem normalize_second_application (s : Option String) :
    pyNormalizeOpt none = "" ∧ pyNormalizeOpt (some "") = "" ∧
    pyNormalize (pyNormalizeOpt s) = pyStrip (pyNormalizeOpt s) := by
  refine ⟨rfl, by decide, ?_⟩
  cases s with
  | none => decide
  | some v =>
    show pyNormalize (pyNormalize v) = pyStrip (pyNormalize v)
    have := pyNormalize_of_stable (pyNormalize v).data
      (pyNormalize_chars_stable v)
    simpa [pyStrip] using this

/-- C5 (counterexample): normalizing U+00B4 ACUTE ACCENT (whose NFKD
decomposition is a space followed by a combining acute) yields a
single space, and normalizing again yields the empty string, so
`normalize` is not idempotent. -/
theorem normalize_not_idempotent :
    pyNormalize (pyNormalize "´") ≠ pyNormalize "´" := by decide

/-! ## Lemmas about the scoring loop -/

/-- Every entry of the scoring loop output comes from a candidate via
`scoreEntry`. -/
theorem mem_buildScored (normSearch rawTitle : String) (year : Option Nat)
    (mediaType : Option String) (parent : Option PlexObj) :
    ∀ (i : Nat) (cs : List PlexObj) (e : ScoredEntry),
      e ∈ buildScored normSearch rawTitle year mediaType parent i cs →
      ∃ j c, c ∈ cs ∧
        scoreEntry normSearch rawTitle year mediaType parent j c = some e := by
  intro i cs
  induction cs generalizing i with
  | nil => intro e he; cases he
  | cons c cs ih =>
    intro e he
    unfold buildScored at he
    cases hsc : scoreEntry normSearch rawTitle year mediaType parent i c with
    | none =>
      rw [hsc] at he
      obtain ⟨j, c', hc', hj⟩ := ih (i + 1) e he
      exact ⟨j, c', List.mem_cons_of_mem c hc', hj⟩
    | some e' =>
      rw [hsc] at he
      rcases List.mem_cons.1 he with h | h
      · exact ⟨i, c, List.mem_cons_self c cs, by rw [hsc, h]⟩
      · obtain ⟨j, c', hc', hj⟩ := ih (i + 1) e h
        exact ⟨j, c', List.mem_cons_of_mem c hc', hj⟩

/-- The base score of a candidate whose normalized title is not the
normalized search title is at most 25. -/
theorem baseScore_le_of_ne (normSearch rawTitle candTitle : String)
    (year : Option Nat) (candYearInt : Option Nat)
    (h : pyNormalize candTitle ≠ normSearch) :
    0 ≤ baseScore normSearch rawTitle year candTitle candYearInt ∧
    baseScore normSearch rawTitle year candTitle candYearInt ≤ 25 := by
  unfold baseScore
  rw [if_neg h]
  split
  · split <;> omega
  · omega

/-- What `scoreEntry` records for a kept candidate. -/
theorem scoreEntry_inv (normSearch rawTitle : String) (year : Option Nat)
    (mediaType : Option String) (parent : Option PlexObj) (j : Nat)
    (c : PlexObj) (e : ScoredEntry)
    (h : scoreEntry normSearch rawTitle year mediaType parent j c = some e) :
    e.cand = c ∧ e.idx = j ∧ e.normTitle = pyNormalize (candTitleOf c) ∧
    e.yearInt = pyCandYearInt c.year ∧
    (pyTruthyS mediaType && pyTruthyS c.ctype
       && !decide (mediaType = c.ctype)) = false ∧
    e.score = candScore normSearch rawTitle year parent c := by
  unfold scoreEntry at h
  by_cases hf : (pyTruthyS mediaType && pyTruthyS c.ctype
      && !decide (mediaType = c.ctype)) = true
  · rw [if_pos hf] at h; cases h
  · rw [if_neg hf] at h
    have he := Option.some.inj h
    subst he
    refine ⟨rfl, rfl, rfl, rfl, by simpa using hf, rfl⟩

/-- The score of a kept candidate with a non-matching normalized title
is at most 55. -/
theorem scoreEntry_score_bound (normSearch rawTitle : String)
    (year : Option Nat) (mediaType : Option String)
    (parent : Option PlexObj) (j : Nat) (c : PlexObj) (e : ScoredEntry)
    (h : scoreEntry normSearch rawTitle year mediaType parent j c = some e)
    (hne : pyNormalize (candTitleOf c) ≠ normSearch) :
    e.score ≤ 55 := by
  obtain ⟨-, -, -, -, -, hscore⟩ :=
    scoreEntry_inv normSearch rawTitle year mediaType parent j c e h
  obtain ⟨h0, h25⟩ := baseScore_le_of_ne normSearch rawTitle (candTitleOf c)
    year (pyCandYearInt c.year) hne
  rw [hscore]
  unfold candScore
  cases parent with
  | none => simp only []; split <;> omega
  | some p => simp only []; split <;> split <;> omega

/-! ## Claim C3: the base scoring rules -/

/-- C3 (amended): for every scored candidate, an exact normalized
title match scores 99, upgraded to 100 exactly when a nonzero year was
extracted from the search title and the candidate's year is a nonzero
value equal to it (the source tests Python truthiness of both years,
so an extracted year 0 or a candidate year 0 never upgrades);
otherwise, a substring match scores 20 plus 5 when the candidate title
case-insensitively starts with the raw search title. -/
theorem base_score_rules (normSearch rawTitle candTitle : String)
    (year candYear : Option Nat) :
    (pyNormalize candTitle = normSearch →
      ((∃ y, year = some y ∧ y ≠ 0 ∧ candYear = some y) →
        baseScore normSearch rawTitle year candTitle
          (pyCandYearInt candYear) = 100) ∧
      ((¬ ∃ y, year = some y ∧ y ≠ 0 ∧ candYear = some y) →
        baseScore normSearch rawTitle year candTitle
          (pyCandYearInt candYear) = 99)) ∧
    (pyNormalize candTitle ≠ normSearch →
      pyInStr normSearch (pyNormalize candTitle) = true →
      baseScore normSearch rawTitle year candTitle (pyCandYearInt candYear)
        = 20 + (if pyStartsWith (pyLowerS candTitle) (pyLowerS rawTitle)
                then 5 else 0)) := by
  refine ⟨fun hexact => ⟨?_, ?_⟩, fun hne hsub => ?_⟩
  · rintro ⟨y, hy, hy0, hcy⟩
    subst hy
    subst hcy
    unfold baseScore
    rw [if_pos hexact]
    simp [pyCandYearInt, hy0]
  · intro hno
    unfold baseScore
    rw [if_pos hexact]
    cases year with
    | none => simp
    | some y =>
      show (if (decide (y ≠ 0)
          && decide (pyCandYearInt candYear = some y)) = true
        then (100 : Int) else 99) = 99
      have hcond : (decide (y ≠ 0)
          && decide (pyCandYearInt candYear = some y)) = false := by
        by_contra hT
        rw [Bool.not_eq_false, Bool.and_eq_true, decide_eq_true_eq,
          decide_eq_true_eq] at hT
        obtain ⟨hy0, hcy⟩ := hT
        apply hno
        refine ⟨y, rfl, hy0, ?_⟩
        cases candYear with
        | none => simp [pyCandYearInt] at hcy
        | some z =>
          by_cases hz : z = 0
          · simp [pyCandYearInt, hz] at hcy
          · simp [pyCandYearInt, hz] at hcy
            rw [hcy]
      rw [hcond]
      simp
  · unfold baseScore
    rw [if_neg hne, if_pos hsub]

/-- C3 (witness for the amended rules): an exact title and year match
scores 100; a pure substring match with the prefix bonus scores 25. -/
theorem base_score_rules_witness :
    baseScore (pyNormalize "Dune") "Dune" (some 1984) "Dune"
      (pyCandYearInt (some 1984)) = 100 ∧
    baseScore (pyNormalize "Alien") "Alien" none "Alien 3"
      (pyCandYearInt none) = 25 := by
  constructor
  · exact ((base_score_rules (pyNormalize "Dune") "Dune" "Dune"
      (some 1984) (some 1984)).1 (by decide)).1 ⟨1984, rfl, by decide, rfl⟩
  · have h := (base_score_rules (pyNormalize "Alien") "Alien" "Alien 3"
      none none).2 (by decide) (by decide)
    rw [h]
    decide

/-- C3 (counterexample to the claim as stated): for the search title
Movie (0000) a year is extracted (0, removed from the title) and a
candidate titled Movie with year attribute 0 has a year equal to the
extracted year, yet its score is 99, not 100: the source tests
`if year and cand_year_int == year`, and both year 0 values are falsy
in Python. -/
theorem base_score_year_zero_counterexample :
    extractTrailingYear (pyStrip "Movie (0000)") = ("Movie", some 0) ∧
    ({ title := some "Movie", year := some 0 : PlexObj }).year = some 0 ∧
    baseScore (pyNormalize "Movie") "Movie" (some 0) "Movie"
      (pyCandYearInt (some 0)) = 99 ∧
    (search_plex_for_media_by_title "Movie (0000)" none none
      [{ title := some "Movie", year := some 0 }]).best_score = 99 := by
  refine ⟨by decide, rfl, by decide, by decide⟩

/-! ## Claim C9: only exact normalized titles reach score 99 -/

/-- C9: every candidate counted as an excellent match (score at least
99) has a normalized title exactly equal to the normalized search
title — the substring score, prefix bonus, parent bonus and noise
floor together top out at 55 — and the parent self-match shortcut
also requires exact normalized-title equality. -/
theorem excellent_matches_exact_title (normSearch rawTitle : String)
    (year : Option Nat) (mediaType : Option String)
    (parent : Option PlexObj) (cands : List PlexObj) :
    (∀ e ∈ sortScored
        (buildScored normSearch rawTitle year mediaType parent 0 cands),
      99 ≤ e.score → e.normTitle = normSearch) ∧
    (∀ p, parentSelfMatch normSearch year p = true →
      pyNormalizeOpt p.title = normSearch) := by
  constructor
  · intro e he hs
    rw [sortScored, List.mem_insertionSort] at he
    obtain ⟨j, c, _, hsc⟩ :=
      mem_buildScored normSearch rawTitle year mediaType parent 0 cands e he
    obtain ⟨-, -, hnorm, -, -, -⟩ :=
      scoreEntry_inv normSearch rawTitle year mediaType parent j c e hsc
    by_contra hne
    have hb : e.score ≤ 55 :=
      scoreEntry_score_bound normSearch rawTitle year mediaType parent j c e
        hsc (by rw [← hnorm]; exact hne)
    omega
  · intro p hp
    unfold parentSelfMatch at hp
    rw [Bool.and_eq_true, decide_eq_true_eq] at hp
    exact hp.1

/-- C9 (witness): a single exact-match candidate reaches score 99 and
indeed has the normalized search title; a parent titled Dune passes
the self-match test and normalizes to the search title. -/
theorem excellent_matches_exact_title_witness :
    ({ score := 99, idx := 0, cand := { title := some "Dune" },
       normTitle := "dune", yearInt := none : ScoredEntry }).normTitle
      = pyNormalize "Dune" ∧
    pyNormalizeOpt ({ title := some "Dune" : PlexObj }).title
      = pyNormalize "Dune" := by
  constructor
  · exact (excellent_matches_exact_title (pyNormalize "Dune") "Dune" none
      none none [{ title := some "Dune" }]).1 _ (by decide) (by decide)
  · exact (excellent_matches_exact_title (pyNormalize "Dune") "Dune" none
      none (some { title := some "Dune" }) []).2 _ (by decide)

/-! ## Claim C7: descending stable ordering of the scored candidates -/

/-- The entries produced by the scoring loop carry strictly increasing
discovery indices (all at least the starting index). -/
theorem buildScored_idx_lt (normSearch rawTitle : String)
    (year : Option Nat) (mediaType : Option String)
    (parent : Option PlexObj) :
    ∀ (i : Nat) (cs : List PlexObj),
      (buildScored normSearch rawTitle year mediaType parent i cs).Pairwise
        (fun a b => a.idx < b.idx) ∧
      ∀ e ∈ buildScored normSearch rawTitle year mediaType parent i cs,
        i ≤ e.idx := by
  intro i cs
  induction cs generalizing i with
  | nil => exact ⟨List.Pairwise.nil, by intro e he; cases he⟩
  | cons c cs ih =>
    unfold buildScored
    cases hsc : scoreEntry normSearch rawTitle year mediaType parent i c with
    | none =>
      obtain ⟨h1, h2⟩ := ih (i + 1)
      exact ⟨h1, fun e he => by have := h2 e he; omega⟩
    | some e' =>
      obtain ⟨h1, h2⟩ := ih (i + 1)
      have hidx : e'.idx = i :=
        (scoreEntry_inv normSearch rawTitle year mediaType parent i c e'
          hsc).2.1
      refine ⟨List.Pairwise.cons ?_ h1, ?_⟩
      · intro b hb
        have := h2 b hb
        omega
      · intro e he
        rcases List.mem_cons.1 he with h | h
        · subst h; omega
        · have := h2 e h; omega

/-- C7: the scored candidate list is a permutation of the loop output,
sorted by descending score, and stable — any two entries with equal
scores appear in their original discovery order. -/
theorem scored_sorted_stable (normSearch rawTitle : String)
    (year : Option Nat) (mediaType : Option String)
    (parent : Option PlexObj) (cands : List PlexObj) :
    (sortScored (buildScored normSearch rawTitle year mediaType parent 0
        cands)).Perm
      (buildScored normSearch rawTitle year mediaType parent 0 cands) ∧
    (sortScored (buildScored normSearch rawTitle year mediaType parent 0
        cands)).Pairwise (fun a b => b.score ≤ a.score) ∧
    (sortScored (buildScored normSearch rawTitle year mediaType parent 0
        cands)).Pairwise (fun a b => a.score = b.score → a.idx < b.idx) := by
  set l := buildScored normSearch rawTitle year mediaType parent 0 cands
    with hl
  have hperm : (sortScored l).Perm l := List.perm_insertionSort keyLE l
  have hsorted : (sortScored l).Pairwise keyLE :=
    List.sorted_insertionSort keyLE l
  have hidx : l.Pairwise (fun a b => a.idx < b.idx) :=
    (buildScored_idx_lt normSearch rawTitle year mediaType parent 0 cands).1
  have hnodupl : (l.map ScoredEntry.idx).Nodup := by
    rw [List.Nodup, List.pairwise_map]
    exact hidx.imp (fun h => by omega)
  have hnodup : ((sortScored l).map ScoredEntry.idx).Nodup :=
    ((hperm.map ScoredEntry.idx).nodup_iff).2 hnodupl
  have hne : (sortScored l).Pairwise (fun a b => a.idx ≠ b.idx) := by
    rw [List.Nodup, List.pairwise_map] at hnodup
    exact hnodup
  refine ⟨hperm, hsorted.imp ?_, (hsorted.and hne).imp ?_⟩
  · intro a b h
    rcases h with h | ⟨h, -⟩ <;> omega
  · rintro a b ⟨hab, hne'⟩ hscore
    rcases hab with h | ⟨-, h⟩
    · omega
    · omega

/-! ## Claim C6: the media-kind filter -/

/-- C6: when a media-kind filter is supplied and a candidate carries a
(non-empty) kind different from the filter, the candidate is excluded
from the returned candidate list (the hypothesis that the parent
self-match shortcut does not fire keeps the call on the scoring
path). -/
theorem media_kind_filter_excludes (mediaTitle : String) (mt : String)
    (parent : Option PlexObj) (cands : List PlexObj) (c : PlexObj)
    (t : String) (hmt : mt ≠ "") (hc : c.ctype = some t) (ht : t ≠ "")
    (hne : t ≠ mt)
    (hshort : shortcutFires mediaTitle parent = false) :
    c ∉ (search_plex_for_media_by_title mediaTitle (some mt) parent
          cands).candidates := by
  intro hmem
  unfold search_plex_for_media_by_title at hmem
  by_cases h0 : pyStrip mediaTitle = ""
  · rw [if_pos h0] at hmem
    simp [emptySearchResult] at hmem
  · rw [if_neg h0] at hmem
    have hscore : c ∈ (searchScore
        (pyNormalize (extractTrailingYear (pyStrip mediaTitle)).1)
        (extractTrailingYear (pyStrip mediaTitle)).1
        (extractTrailingYear (pyStrip mediaTitle)).2
        (some mt) parent cands).candidates := by
      cases hp : parent with
      | none =>
        rw [hp] at hmem
        exact hmem
      | some p =>
        rw [hp] at hmem hshort
        have hpsm : parentSelfMatch
            (pyNormalize (extractTrailingYear (pyStrip mediaTitle)).1)
            (extractTrailingYear (pyStrip mediaTitle)).2 p = false := by
          unfold shortcutFires at hshort
          simpa [h0] using hshort
        simpa [hpsm] using hmem
    revert hscore
    unfold searchScore
    cases hsl : sortScored (buildScored
        (pyNormalize (extractTrailingYear (pyStrip mediaTitle)).1)
        (extractTrailingYear (pyStrip mediaTitle)).1
        (extractTrailingYear (pyStrip mediaTitle)).2
        (some mt) parent 0 cands) with
    | nil => simp [emptySearchResult]
    | cons best rest =>
      intro hscore
      simp only [List.mem_map] at hscore
      obtain ⟨e, he, hecand⟩ := hscore
      rw [← hsl] at he
      rw [sortScored, List.mem_insertionSort] at he
      obtain ⟨j, c', _, hsc⟩ := mem_buildScored _ _ _ _ _ 0 cands e he
      obtain ⟨hcand, -, -, -, hfilter, -⟩ :=
        scoreEntry_inv _ _ _ _ _ j c' e hsc
      have hcc : c' = c := by rw [← hcand, hecand]
      subst hcc
      rw [hc] at hfilter
      simp [pyTruthyS, hmt, ht] at hfilter
      exact hne (by simpa using hfilter.symm)

/-- C6 (witness): a candidate of kind episode is excluded when
searching with the movie filter. -/
theorem media_kind_filter_excludes_witness :
    ({ title := some "Alien", ctype := some "episode" : PlexObj }) ∉
      (search_plex_for_media_by_title "Alien" (some "movie") none
        [{ title := some "Alien", ctype := some "episode" }]).candidates :=
  media_kind_filter_excludes "Alien" "movie" none
    [{ title := some "Alien", ctype := some "episode" }]
    { title := some "Alien", ctype := some "episode" } "episode"
    (by decide) rfl (by decide) (by decide) (by decide)

/-! ## Claim C1: interactive resolution without a confident match -/

/-- C1 (code bug): in interactive mode, for a result with a non-empty
candidate list and no confident match (zero excellent matches),
`resolve_plex_item` does not present the full candidate list — it
raises a `TypeError`, because line 449 applies `len` to the integer
`results["nb_excellent_match"]`.  Concretely, searching Alien over the
single candidate Alien 3 (score 25) in interactive mode errors out. -/
theorem resolve_interactive_no_confident_raises :
    (search_plex_for_media_by_title "Alien" none none
       [{ title := some "Alien 3" }]).candidates ≠ [] ∧
    (search_plex_for_media_by_title "Alien" none none
       [{ title := some "Alien 3" }]).is_confident = false ∧
    (search_plex_for_media_by_title "Alien" none none
       [{ title := some "Alien 3" }]).nb_excellent_match = 0 ∧
    resolve_plex_item "Alien" none false none
      [{ title := some "Alien 3" }] 0 = .error .typeError := by
  exact ⟨by decide, by decide, by decide, rfl⟩

/-! ## The validation pass characterized -/

/-- Whether the validation pass keeps an operation for this entity:
scalar fields need the attribute present; tag collections accept the
plural name or the singular fallback. -/
def keepOp (item : PlexItem) : UpdateOp → Bool
  | .field rf _ _ => !(item.scalarAttrs.lookup rf).isNone
  | .tag rf _ _ =>
      !(item.tagAttrs.lookup rf).isNone
      || !(item.tagAttrs.lookup (rstripS rf)).isNone

/-- The `skipped_missing_field` message recorded when an operation is
dropped. -/
def missingMsg (item : PlexItem) : UpdateOp → String
  | .field rf _ _ => itemTitle item ++ ": Missing field '" ++ rf ++ "'"
  | .tag rf _ _ => itemTitle item ++ ": Missing tag collection '" ++ rf ++ "'"

/-- The validation pass keeps exactly the operations passing `keepOp`,
in order, and records one missing-field message per dropped
operation. -/
theorem validateOps_eq (item : PlexItem) :
    ∀ ops : List UpdateOp,
      validateOps item ops
        = (ops.filter (keepOp item),
           (ops.filter (fun op => !keepOp item op)).map (missingMsg item)) := by
  intro ops
  induction ops with
  | nil => rfl
  | cons op rest ih =>
    unfold validateOps
    rw [ih]
    cases op with
    | field rf v o =>
      by_cases h : (item.scalarAttrs.lookup rf).isNone
      · simp [keepOp, missingMsg, h]
      · simp [keepOp, missingMsg, h]
    | tag rf new ex =>
      by_cases h1 : (item.tagAttrs.lookup rf).isNone
      · by_cases h2 : (item.tagAttrs.lookup (rstripS rf)).isNone
        · simp [keepOp, missingMsg, h1, h2]
        · simp [keepOp, missingMsg, h1, h2]
      · simp [keepOp, missingMsg, h1]

/-- Membership in the validated plan. -/
theorem mem_validated (item : PlexItem) (ops : List UpdateOp)
    (op : UpdateOp) :
    op ∈ (validateOps item ops).1 ↔ op ∈ ops ∧ keepOp item op = true := by
  rw [validateOps_eq]
  simp [List.mem_filter]

/-! ## Claim C10: the singular fallback of tag validation -/

/-- C10: a planned tag operation whose plural collection attribute is
absent is kept whenever the singular attribute (plural with trailing
s characters stripped) is present; only when both are absent is it
dropped, with a missing-tag-collection message recorded. -/
theorem validate_tag_singular_fallback (item : PlexItem)
    (ops : List UpdateOp) (rf : String) (new ex : List String)
    (hplural : (item.tagAttrs.lookup rf).isNone = true) :
    ((item.tagAttrs.lookup (rstripS rf)).isNone = false →
      UpdateOp.tag rf new ex ∈ ops →
      UpdateOp.tag rf new ex ∈ (validateOps item ops).1) ∧
    ((item.tagAttrs.lookup (rstripS rf)).isNone = true →
      UpdateOp.tag rf new ex ∉ (validateOps item ops).1 ∧
      (UpdateOp.tag rf new ex ∈ ops →
        (itemTitle item ++ ": Missing tag collection '" ++ rf ++ "'")
          ∈ (validateOps item ops).2)) := by
  constructor
  · intro hsing hmem
    rw [mem_validated]
    exact ⟨hmem, by simp [keepOp, hplural, hsing]⟩
  · intro hsing
    constructor
    · intro hmem
      rw [mem_validated] at hmem
      have : keepOp item (UpdateOp.tag rf new ex) = false := by
        simp [keepOp, hplural, hsing]
      rw [this] at hmem
      exact Bool.false_ne_true hmem.2
    · intro hmem
      rw [validateOps_eq]
      simp only [List.mem_map]
      refine ⟨UpdateOp.tag rf new ex, ?_, rfl⟩
      rw [List.mem_filter]
      exact ⟨hmem, by simp [keepOp, hplural, hsing]⟩

/-- C10 (witness): on an entity exposing only the singular `director`
collection, a planned `directors` tag operation survives validation;
a `genres` operation is dropped with the recorded message. -/
theorem validate_tag_singular_fallback_witness :
    (UpdateOp.tag "directors" ["X"] [] ∈
      (validateOps { tagAttrs := [("director", some [])] }
        [UpdateOp.tag "directors" ["X"] []]).1) ∧
    (UpdateOp.tag "genres" ["X"] [] ∉
      (validateOps { tagAttrs := [("director", some [])] }
        [UpdateOp.tag "genres" ["X"] []]).1) ∧
    ("Unknown Item: Missing tag collection 'genres'" ∈
      (validateOps { tagAttrs := [("director", some [])] }
        [UpdateOp.tag "genres" ["X"] []]).2) := by
  refine ⟨?_, ?_, ?_⟩
  · exact (validate_tag_singular_fallback
      { tagAttrs := [("director", some [])] }
      [UpdateOp.tag "directors" ["X"] []] "directors" ["X"] []
      (by decide)).1 (by decide) (by decide)
  · exact ((validate_tag_singular_fallback
      { tagAttrs := [("director", some [])] }
      [UpdateOp.tag "genres" ["X"] []] "genres" ["X"] []
      (by decide)).2 (by decide)).1
  · have h := ((validate_tag_singular_fallback
      { tagAttrs := [("director", some [])] }
      [UpdateOp.tag "genres" ["X"] []] "genres" ["X"] []
      (by decide)).2 (by decide)).2 (by decide)
    simpa using h

/-! ## Claim C8: empty validated plan -/

/-- C8: when the validated plan is empty, the run records the
no-changes-required outcome for the entity and the artwork matcher is
invoked exactly when the always-update-artwork override is set. -/
theorem empty_plan_outcome (cfg : Config) (item : PlexItem)
    (nfo : List (String × NfoValue)) (saveOk : Bool)
    (h : (validateOps item (planOps cfg.allowUnlock item nfo)).1 = []) :
    (update_plex_item_fields cfg item nfo saveOk).skipped
      = [itemTitle item ++ ": No metadata changes required."] ∧
    (update_plex_item_fields cfg item nfo saveOk).artworkInvoked
      = cfg.alwaysUpdateArt := by
  constructor <;> simp [update_plex_item_fields, h]

/-- C8 (witness): an entity with no planned changes records the
no-changes outcome; artwork is not invoked with the override off and
is invoked with it on. -/
theorem empty_plan_outcome_witness :
    (validateOps ({} : PlexItem) (planOps true {} [])).1 = [] ∧
    (update_plex_item_fields ⟨true, false, false⟩ {} [] true).skipped
      = ["Unknown Item: No metadata changes required."] ∧
    (update_plex_item_fields ⟨true, false, false⟩ {} [] true).artworkInvoked
      = false ∧
    (update_plex_item_fields ⟨true, false, true⟩ {} [] true).artworkInvoked
      = true := by
  refine ⟨by decide, ?_, ?_, ?_⟩
  · have h := (empty_plan_outcome ⟨true, false, false⟩ {} [] true
      (by decide)).1
    rw [h]
    decide
  · exact (empty_plan_outcome ⟨true, false, false⟩ {} [] true (by decide)).2
  · exact (empty_plan_outcome ⟨true, false, true⟩ {} [] true (by decide)).2

/-! ## Properties of the tag dedup helpers -/

/-- Every tag kept by the case-insensitive dedup is stripped,
non-empty and has a lowered form outside `seen`; kept tags are
pairwise distinct case-insensitively. -/
theorem dedupCI_spec :
    ∀ (l seen : List String),
      (∀ t ∈ dedupCI seen l,
        pyStrip t = t ∧ t ≠ "" ∧ pyLowerS t ∉ seen) ∧
      (dedupCI seen l).Pairwise (fun a b => pyLowerS a ≠ pyLowerS b) := by
  intro l
  induction l with
  | nil =>
    intro seen
    exact ⟨(fun t ht => absurd ht (List.not_mem_nil t)), List.Pairwise.nil⟩
  | cons t ts ih =>
    intro seen
    unfold dedupCI
    by_cases hcl : pyStrip t = ""
    · rw [if_pos hcl]
      exact ih seen
    · rw [if_neg hcl]
      by_cases hlow : pyLowerS (pyStrip t) ∈ seen
      · rw [if_pos hlow]
        exact ih seen
      · rw [if_neg hlow]
        obtain ⟨ihm, ihp⟩ := ih (pyLowerS (pyStrip t) :: seen)
        constructor
        · intro u hu
          rcases List.mem_cons.1 hu with h | h
          · subst h
            exact ⟨pyStrip_idem t, hcl, hlow⟩
          · obtain ⟨h1, h2, h3⟩ := ihm u h
            exact ⟨h1, h2, fun hc => h3 (List.mem_cons_of_mem _ hc)⟩
        · refine List.Pairwise.cons ?_ ihp
          intro u hu
          obtain ⟨-, -, h3⟩ := ihm u hu
          intro he
          exact h3 (by rw [← he]; exact List.mem_cons_self _ _)

/-- `refineTags` keeps a sublist, so dedup properties carry over. -/
theorem refineTags_sublist (l : List String) : (refineTags l).Sublist l :=
  List.filter_sublist l

/-- `dedupLower` is the identity on lists that are already pairwise
case-insensitively distinct and avoid `seen`. -/
theorem dedupLower_id :
    ∀ (l seen : List String),
      (∀ t ∈ l, pyLowerS t ∉ seen) →
      l.Pairwise (fun a b => pyLowerS a ≠ pyLowerS b) →
      dedupLower seen l = l := by
  intro l
  induction l with
  | nil => intro seen _ _; rfl
  | cons t ts ih =>
    intro seen hseen hpair
    unfold dedupLower
    rw [if_neg (hseen t (List.mem_cons_self t ts))]
    congr 1
    apply ih
    · intro u hu
      rw [List.mem_cons]
      push_neg
      refine ⟨?_, hseen u (List.mem_cons_of_mem t hu)⟩
      exact fun he => (List.pairwise_cons.1 hpair).1 u hu he.symm
    · exact (List.pairwise_cons.1 hpair).2

/-- `extractExisting` on plain stripped non-empty strings is the
identity. -/
theorem extractExisting_str (l : List String)
    (h : ∀ t ∈ l, pyStrip t = t ∧ t ≠ "") :
    extractExisting (l.map TagEntry.str) = l := by
  induction l with
  | nil => rfl
  | cons t ts ih =>
    obtain ⟨h1, h2⟩ := h t (List.mem_cons_self t ts)
    simp only [List.map_cons]
    show (if pyStrip t = "" then [] else [pyStrip t])
        ++ extractExisting (List.map TagEntry.str ts) = t :: ts
    rw [h1, if_neg h2]
    have hrec := ih (fun u hu => h u (List.mem_cons_of_mem t hu))
    rw [hrec]
    rfl

/-- Whether an operation is a tag operation. -/
def opIsTag : UpdateOp → Bool
  | .field _ _ _ => false
  | .tag _ _ _ => true

/-- Inversion of the planner's per-entry decision: what must hold of
the NFO entry and the entity for `planEntry` to emit an operation. -/
theorem planEntry_inv (a : Bool) (item : PlexItem) (p : String × NfoValue)
    (op : UpdateOp) (h : planEntry a item p = some op) :
    SUPPORTED_FIELD_MAP.lookup p.1 = some (op.restFieldOf, opIsTag op) ∧
    nfoEmpty p.2 = false ∧
    (match op with
     | .field rf v o =>
        v = pyStrip (pyStrOfNfo p.2) ∧
        o = pyStrip (((item.scalarAttrs.lookup rf).join).getD "") ∧
        v ≠ o ∧ (isLocked item rf && !a) = false
     | .tag rf new ex =>
        new = refineTags (dedupCI [] (collectTagNames p.2)) ∧
        ex = dedupLower []
          (extractExisting (((item.tagAttrs.lookup rf).join).getD [])) ∧
        new ≠ []) := by
  unfold planEntry at h
  cases hlk : SUPPORTED_FIELD_MAP.lookup p.1 with
  | none => rw [hlk] at h; cases h
  | some pr =>
    obtain ⟨rf0, isTag0⟩ := pr
    rw [hlk] at h
    simp only at h
    by_cases hemp : nfoEmpty p.2
    · rw [if_pos hemp] at h; cases h
    · rw [if_neg hemp] at h
      cases isTag0 with
      | true =>
        rw [if_pos rfl] at h
        by_cases hu : dedupCI [] (collectTagNames p.2) = []
        · rw [if_pos hu] at h; cases h
        · rw [if_neg hu] at h
          by_cases hr : refineTags (dedupCI [] (collectTagNames p.2)) = []
          · rw [if_pos hr] at h; cases h
          · rw [if_neg hr] at h
            have := Option.some.inj h
            subst this
            exact ⟨by simp [UpdateOp.restFieldOf, opIsTag, hlk],
              by simpa using hemp, rfl, rfl, hr⟩
      | false =>
        rw [if_neg (by simp)] at h
        by_cases heq : pyStrip (pyStrOfNfo p.2)
            = pyStrip (((item.scalarAttrs.lookup rf0).join).getD "")
        · rw [if_pos heq] at h; cases h
        · rw [if_neg heq] at h
          by_cases hlock : (isLocked item rf0 && !a) = true
          · rw [if_pos hlock] at h; cases h
          · rw [if_neg hlock] at h
            have := Option.some.inj h
            subst this
            exact ⟨by simp [UpdateOp.restFieldOf, opIsTag, hlk],
              by simpa using hemp, rfl, rfl, heq, by simpa using hlock⟩

/-! ## Claim C4: TagOp tag-list invariants -/

/-- C4: every tag operation the planner emits carries a new-tag list
that is case-insensitively duplicate-free (first-seen casing and order
are kept by construction) and in which no tag contains a separator
character (comma, slash, pipe, semicolon) — combined tokens such as
Action/Adventure never appear. -/
theorem tag_op_invariants (allowUnlock : Bool) (item : PlexItem)
    (nfo : List (String × NfoValue)) (rf : String) (new ex : List String)
    (hmem : UpdateOp.tag rf new ex ∈ planOps allowUnlock item nfo) :
    new.Pairwise (fun a b => pyLowerS a ≠ pyLowerS b) ∧
    ∀ t ∈ new, t.data.any isSep = false := by
  unfold planOps at hmem
  rw [List.mem_filterMap] at hmem
  obtain ⟨p, _, hp⟩ := hmem
  obtain ⟨-, -, hnew, -, -⟩ := planEntry_inv allowUnlock item p _ hp
  subst hnew
  constructor
  · exact ((dedupCI_spec (collectTagNames p.2) []).2).sublist
      (refineTags_sublist _)
  · intro t ht
    unfold refineTags at ht
    rw [List.mem_filter] at ht
    simpa using ht.2

/-- C4 (witness): the spec's example — raw tags Action, action, Drama
produce the deduplicated list Action, Drama with first-seen casing,
and the invariants hold of it. -/
theorem tag_op_invariants_witness :
    planOps true {} [("genres",
        NfoValue.list [.str "Action", .str "action", .str "Drama"])]
      = [UpdateOp.tag "genres" ["Action", "Drama"] []] ∧
    (["Action", "Drama"].Pairwise (fun a b => pyLowerS a ≠ pyLowerS b) ∧
      ∀ t ∈ ["Action", "Drama"], t.data.any isSep = false) := by
  refine ⟨by decide, ?_⟩
  exact tag_op_invariants true {}
    [("genres", NfoValue.list [.str "Action", .str "action", .str "Drama"])]
    "genres" ["Action", "Drama"] [] (by decide)

/-! ## Support lemmas for the idempotence analysis (claim C2) -/

/-- The remote fields addressed by the record's supported keys, in
order. -/
def restFieldsOf (nfo : List (String × NfoValue)) : List String :=
  nfo.filterMap (fun p => (SUPPORTED_FIELD_MAP.lookup p.1).map Prod.fst)

/-- If the image of a partial map over a list has no duplicates, two
list elements mapping to the same value are equal. -/
theorem nodup_filterMap_unique {α β : Type} (f : α → Option β) :
    ∀ l : List α, (l.filterMap f).Nodup →
      ∀ p ∈ l, ∀ q ∈ l, ∀ x, f p = some x → f q = some x → p = q := by
  intro l
  induction l with
  | nil => intro _ p hp; cases hp
  | cons a l ih =>
    intro h p hp q hq x hfp hfq
    rw [List.filterMap_cons] at h
    cases hfa : f a with
    | none =>
      rw [hfa] at h
      rcases List.mem_cons.1 hp with hpa | hpl
      · subst hpa; rw [hfp] at hfa; cases hfa
      · rcases List.mem_cons.1 hq with hqa | hql
        · subst hqa; rw [hfq] at hfa; cases hfa
        · exact ih h p hpl q hql x hfp hfq
    | some y =>
      rw [hfa] at h
      have hnm := (List.nodup_cons.1 h).1
      have hnd := (List.nodup_cons.1 h).2
      rcases List.mem_cons.1 hp with hpa | hpl
      · rcases List.mem_cons.1 hq with hqa | hql
        · rw [hpa, hqa]
        · subst hpa
          rw [hfp] at hfa
          have hxy := Option.some.inj hfa
          exact absurd (List.mem_filterMap.2 ⟨q, hql, by rw [hfq, hxy]⟩) hnm
      · rcases List.mem_cons.1 hq with hqa | hql
        · subst hqa
          rw [hfq] at hfa
          have hxy := Option.some.inj hfa
          exact absurd (List.mem_filterMap.2 ⟨p, hpl, by rw [hfp, hxy]⟩) hnm
        · exact ih hnd p hpl q hql x hfp hfq

/-- A filterMap whose hits are refined by another filterMap gives a
sublist after mapping. -/
theorem filterMap_map_sublist {α β γ : Type} (f : α → Option β)
    (g : α → Option γ) (m : β → γ)
    (hfg : ∀ x b, f x = some b → g x = some (m b)) :
    ∀ l : List α, ((l.filterMap f).map m).Sublist (l.filterMap g) := by
  intro l
  induction l with
  | nil => exact List.Sublist.refl _
  | cons a l ih =>
    rw [List.filterMap_cons, List.filterMap_cons]
    cases hfa : f a with
    | none =>
      cases hga : g a with
      | none => exact ih
      | some c => exact ih.cons c
    | some b =>
      rw [hfg a b hfa]
      exact (List.map_cons m b _ ▸ ih.cons₂ (m b))

/-- Looking up a key in an association list hits one of its pairs. -/
theorem lookup_mem {α β : Type} [BEq α] :
    ∀ (ps : List (α × β)) (a : α) (b : β), ps.lookup a = some b →
      ∃ a', (a', b) ∈ ps := by
  intro ps
  induction ps with
  | nil => intro a b h; cases h
  | cons p ps ih =>
    obtain ⟨k, v⟩ := p
    intro a b h
    cases hak : a == k with
    | true =>
      have : v = b := by simpa [List.lookup, hak] using h
      exact ⟨k, by rw [this]; exact List.mem_cons_self _ _⟩
    | false =>
      obtain ⟨a', ha'⟩ := ih a b (by simpa [List.lookup, hak] using h)
      exact ⟨a', List.mem_cons_of_mem _ ha'⟩

/-- No remote field of the supported table is the rstrip-singular of a
tag-kind remote field of the table. -/
theorem rstrip_not_restfield :
    ∀ px ∈ SUPPORTED_FIELD_MAP, ∀ py ∈ SUPPORTED_FIELD_MAP,
      py.2.2 = true → px.2.1 ≠ rstripS py.2.1 := by decide

/-- `setAssoc` binds the assigned key. -/
theorem lookup_setAssoc_self {α : Type} :
    ∀ (l : List (String × α)) (k : String) (v : α),
      (setAssoc l k v).lookup k = some v := by
  intro l
  induction l with
  | nil => intro k v; simp [setAssoc, List.lookup]
  | cons p l ih =>
    obtain ⟨k', v'⟩ := p
    intro k v
    unfold setAssoc
    by_cases hk : k' = k
    · rw [if_pos hk]
      simp [List.lookup]
    · rw [if_neg hk]
      have : (k == k') = false := by
        simp only [beq_eq_false_iff_ne]
        exact fun he => hk he.symm
      simp [List.lookup, this, ih]

/-- `setAssoc` leaves other keys untouched. -/
theorem lookup_setAssoc_ne {α : Type} :
    ∀ (l : List (String × α)) (k k' : String) (v : α), k' ≠ k →
      (setAssoc l k v).lookup k' = l.lookup k' := by
  intro l
  induction l with
  | nil =>
    intro k k' v h
    simp [setAssoc, List.lookup, beq_eq_false_iff_ne.2 h]
  | cons p l ih =>
    obtain ⟨k0, v0⟩ := p
    intro k k' v h
    unfold setAssoc
    by_cases hk : k0 = k
    · rw [if_pos hk]
      simp [List.lookup, beq_eq_false_iff_ne.2 h, hk]
    · rw [if_neg hk]
      cases hk0 : k' == k0 with
      | true => simp [List.lookup, hk0]
      | false => simp [List.lookup, hk0, ih k k' v h]

/-- Applying a plan never changes the locked-field set. -/
theorem applyPlan_locked (ops : List UpdateOp) :
    ∀ item : PlexItem, (applyPlan item ops).lockedFields
      = item.lockedFields := by
  induction ops with
  | nil => intro item; rfl
  | cons op rest ih =>
    intro item
    show (applyPlan (applyOp item op) rest).lockedFields = _
    rw [ih (applyOp item op)]
    cases op <;> rfl

/-- A plan with no scalar write to `f` leaves the scalar attribute
`f` unchanged. -/
theorem applyPlan_keeps_scalar (ops : List UpdateOp) :
    ∀ (item : PlexItem) (f : String),
      (∀ op ∈ ops, opIsTag op = true ∨ op.restFieldOf ≠ f) →
      (applyPlan item ops).scalarAttrs.lookup f
        = item.scalarAttrs.lookup f := by
  induction ops with
  | nil => intro item f _; rfl
  | cons op rest ih =>
    intro item f h
    show (applyPlan (applyOp item op) rest).scalarAttrs.lookup f = _
    rw [ih (applyOp item op) f
      (fun o ho => h o (List.mem_cons_of_mem op ho))]
    cases op with
    | tag rf new ex => rfl
    | field rf v o =>
      rcases h _ (List.mem_cons_self _ rest) with hT | hne
      · cases hT
      · exact lookup_setAssoc_ne item.scalarAttrs rf f (some v)
          (fun he => hne he.symm)

/-- A plan with no tag write to `f` leaves the tag collection `f`
unchanged. -/
theorem applyPlan_keeps_tag (ops : List UpdateOp) :
    ∀ (item : PlexItem) (f : String),
      (∀ op ∈ ops, opIsTag op = false ∨ op.restFieldOf ≠ f) →
      (applyPlan item ops).tagAttrs.lookup f = item.tagAttrs.lookup f := by
  induction ops with
  | nil => intro item f _; rfl
  | cons op rest ih =>
    intro item f h
    show (applyPlan (applyOp item op) rest).tagAttrs.lookup f = _
    rw [ih (applyOp item op) f
      (fun o ho => h o (List.mem_cons_of_mem op ho))]
    cases op with
    | field rf v o => rfl
    | tag rf new ex =>
      rcases h _ (List.mem_cons_self _ rest) with hT | hne
      · cases hT
      · exact lookup_setAssoc_ne item.tagAttrs rf f _
          (fun he => hne he.symm)

/-- After a plan whose unique scalar write to `rf` stores `v`, the
scalar attribute `rf` holds `v`. -/
theorem applyPlan_scalar_writer (item : PlexItem) (l1 l2 : List UpdateOp)
    (rf v o : String)
    (h2 : ∀ op ∈ l2, opIsTag op = true ∨ op.restFieldOf ≠ rf) :
    (applyPlan item (l1 ++ UpdateOp.field rf v o :: l2)).scalarAttrs.lookup rf
      = some (some v) := by
  unfold applyPlan
  rw [List.foldl_append, List.foldl_cons]
  show (applyPlan (applyOp (applyPlan item l1) (UpdateOp.field rf v o))
      l2).scalarAttrs.lookup rf = _
  rw [applyPlan_keeps_scalar l2 _ rf h2]
  exact lookup_setAssoc_self _ rf (some v)

/-- After a plan whose unique tag write to `rf` stores `new`, the tag
collection `rf` holds exactly `new` as plain strings. -/
theorem applyPlan_tag_writer (item : PlexItem) (l1 l2 : List UpdateOp)
    (rf : String) (new ex : List String)
    (h2 : ∀ op ∈ l2, opIsTag op = false ∨ op.restFieldOf ≠ rf) :
    (applyPlan item (l1 ++ UpdateOp.tag rf new ex :: l2)).tagAttrs.lookup rf
      = some (some (new.map TagEntry.str)) := by
  unfold applyPlan
  rw [List.foldl_append, List.foldl_cons]
  show (applyPlan (applyOp (applyPlan item l1) (UpdateOp.tag rf new ex))
      l2).tagAttrs.lookup rf = _
  rw [applyPlan_keeps_tag l2 _ rf h2]
  exact lookup_setAssoc_self _ rf _

/-- The planner's decision for a supported scalar key, as one
equation. -/
theorem planEntry_scalar_eq (a : Bool) (item : PlexItem)
    (p : String × NfoValue) (rf : String)
    (hlk : SUPPORTED_FIELD_MAP.lookup p.1 = some (rf, false))
    (hemp : nfoEmpty p.2 = false) :
    planEntry a item p =
      (if pyStrip (pyStrOfNfo p.2)
          = pyStrip (((item.scalarAttrs.lookup rf).join).getD "") then none
       else if isLocked item rf && !a then none
       else some (UpdateOp.field rf (pyStrip (pyStrOfNfo p.2))
         (pyStrip (((item.scalarAttrs.lookup rf).join).getD "")))) := by
  unfold planEntry
  rw [hlk]
  simp [hemp]

/-- The planner's decision for a supported tag key, as one equation. -/
theorem planEntry_tag_eq (a : Bool) (item : PlexItem)
    (p : String × NfoValue) (rf : String)
    (hlk : SUPPORTED_FIELD_MAP.lookup p.1 = some (rf, true))
    (hemp : nfoEmpty p.2 = false) :
    planEntry a item p =
      (if dedupCI [] (collectTagNames p.2) = [] then none
       else if refineTags (dedupCI [] (collectTagNames p.2)) = [] then none
       else some (UpdateOp.tag rf
         (refineTags (dedupCI [] (collectTagNames p.2)))
         (dedupLower []
           (extractExisting (((item.tagAttrs.lookup rf).join).getD []))))) := by
  unfold planEntry
  rw [hlk]
  simp [hemp]

/-- With pairwise distinct remote fields in the record, any planned
operation addressing the remote field of entry `p` is the operation
planned for `p` itself. -/
theorem plan_writer_eq (a : Bool) (item : PlexItem)
    (nfo : List (String × NfoValue)) (hnd : (restFieldsOf nfo).Nodup)
    (p : String × NfoValue) (hp : p ∈ nfo) (rf : String) (b : Bool)
    (hlk : SUPPORTED_FIELD_MAP.lookup p.1 = some (rf, b)) :
    ∀ op ∈ planOps a item nfo, op.restFieldOf = rf →
      planEntry a item p = some op := by
  intro op hop hrf
  obtain ⟨q, hq, hpe⟩ := List.mem_filterMap.1 hop
  have h1 := (planEntry_inv a item q op hpe).1
  unfold restFieldsOf at hnd
  have hq_eq : q = p := by
    apply nodup_filterMap_unique _ nfo hnd q hq p hp rf
    · rw [h1]; simp [hrf]
    · rw [hlk]; rfl
  rw [← hq_eq]
  exact hpe

/-- The remote fields of the validated plan are pairwise distinct when
the record's are. -/
theorem vplan_restFields_nodup (a : Bool) (item : PlexItem)
    (nfo : List (String × NfoValue)) (hnd : (restFieldsOf nfo).Nodup) :
    (((validateOps item (planOps a item nfo)).1).map
      UpdateOp.restFieldOf).Nodup := by
  have h1 : ((planOps a item nfo).map UpdateOp.restFieldOf).Nodup := by
    apply List.Nodup.sublist ?_ hnd
    unfold restFieldsOf planOps
    exact filterMap_map_sublist (planEntry a item)
      (fun p => (SUPPORTED_FIELD_MAP.lookup p.1).map Prod.fst)
      UpdateOp.restFieldOf
      (fun x op hx => by
        show Option.map Prod.fst (List.lookup x.1 SUPPORTED_FIELD_MAP)
          = some op.restFieldOf
        rw [(planEntry_inv a item x op hx).1]
        rfl) nfo
  apply List.Nodup.sublist ?_ h1
  rw [validateOps_eq]
  exact (List.filter_sublist _).map UpdateOp.restFieldOf

/-- In a plan with pairwise distinct remote fields, the entries after
a given operation never address its remote field. -/
theorem writer_isolated (vplan : List UpdateOp)
    (hnd : (vplan.map UpdateOp.restFieldOf).Nodup)
    (op0 : UpdateOp) (h : op0 ∈ vplan) :
    ∃ s t, vplan = s ++ op0 :: t ∧
      ∀ op' ∈ t, op'.restFieldOf ≠ op0.restFieldOf := by
  obtain ⟨s, t, hst⟩ := List.append_of_mem h
  refine ⟨s, t, hst, ?_⟩
  intro op' hop' he
  rw [hst, List.map_append, List.map_cons] at hnd
  have hnm : op0.restFieldOf ∉ s.map UpdateOp.restFieldOf
      ++ t.map UpdateOp.restFieldOf := by
    have := List.nodup_middle.1 hnd
    exact (List.nodup_cons.1 this).1
  exact hnm (List.mem_append_right _
    (List.mem_map.2 ⟨op', hop', he⟩))

/-! ## Claim C2: the planner after applying its own plan -/

/-- C2 (amended): for a record whose supported keys address pairwise
distinct remote fields, after applying the first validated plan to the
entity, a second planning run emits no field operation — but tag
operations with a non-empty new-tag set are re-emitted, each with its
existing-tag list now equal to its new-tag list (the planner never
compares new tags against existing tags). -/
theorem second_plan_tagops_only (a : Bool) (item : PlexItem)
    (nfo : List (String × NfoValue)) (hnd : (restFieldsOf nfo).Nodup) :
    ∀ op ∈ (validateOps
        (applyPlan item (validateOps item (planOps a item nfo)).1)
        (planOps a (applyPlan item (validateOps item (planOps a item nfo)).1)
          nfo)).1,
      ∃ rf ts, op = UpdateOp.tag rf ts ts := by
  set vplan := (validateOps item (planOps a item nfo)).1 with hvplan
  set item1 := applyPlan item vplan with hitem1
  intro op hop
  obtain ⟨hopp2, hkeep1⟩ := (mem_validated item1 _ op).1 hop
  obtain ⟨p, hp, hpe1⟩ := List.mem_filterMap.1 hopp2
  have hvsub : ∀ op' ∈ vplan, op' ∈ planOps a item nfo :=
    fun op' h' => ((mem_validated item _ op').1 h').1
  have hvnodup : (vplan.map UpdateOp.restFieldOf).Nodup :=
    vplan_restFields_nodup a item nfo hnd
  cases op with
  | field rf v o =>
    exfalso
    obtain ⟨hlk1, hemp, hv, ho, hvo, hlock1⟩ :=
      planEntry_inv a item1 p (UpdateOp.field rf v o) hpe1
    simp only [UpdateOp.restFieldOf, opIsTag] at hlk1
    have hlockeq : isLocked item1 rf = isLocked item rf := by
      unfold isLocked
      rw [hitem1, applyPlan_locked]
    have hfirst := planEntry_scalar_eq a item p rf hlk1 hemp
    set cur0 := pyStrip (((item.scalarAttrs.lookup rf).join).getD "")
      with hcur0
    by_cases hvc : pyStrip (pyStrOfNfo p.2) = cur0
    · -- first run planned nothing for this field, so it is unchanged
      have hnone : planEntry a item p = none := by rw [hfirst, if_pos hvc]
      have hnow : ∀ op' ∈ vplan,
          opIsTag op' = true ∨ op'.restFieldOf ≠ rf := by
        intro op' hop'
        by_cases hrf' : op'.restFieldOf = rf
        · exfalso
          have h' := plan_writer_eq a item nfo hnd p hp rf false hlk1 op'
            (hvsub op' hop') hrf'
          rw [hnone] at h'
          cases h'
        · exact Or.inr hrf'
      have heq : item1.scalarAttrs.lookup rf
          = item.scalarAttrs.lookup rf := by
        rw [hitem1]
        exact applyPlan_keeps_scalar vplan item rf hnow
      apply hvo
      rw [hv, ho, heq, ← hcur0, hvc]
    · by_cases hlock0 : (isLocked item rf && !a) = true
      · -- locked and unlock disallowed: skipped in both runs
        rw [hlockeq] at hlock1
        rw [hlock0] at hlock1
        cases hlock1
      · -- first run planned this very edit
        have hop0 : planEntry a item p
            = some (UpdateOp.field rf (pyStrip (pyStrOfNfo p.2)) cur0) := by
          rw [hfirst, if_neg hvc, if_neg (by simpa using hlock0)]
        have hop0p : UpdateOp.field rf (pyStrip (pyStrOfNfo p.2)) cur0
            ∈ planOps a item nfo := List.mem_filterMap.2 ⟨p, hp, hop0⟩
        by_cases hkeep0 : keepOp item
            (UpdateOp.field rf (pyStrip (pyStrOfNfo p.2)) cur0) = true
        · -- the edit was applied: second run sees the new value
          have hop0v : UpdateOp.field rf (pyStrip (pyStrOfNfo p.2)) cur0
              ∈ vplan := (mem_validated item _ _).2 ⟨hop0p, hkeep0⟩
          obtain ⟨s, t, hst, hiso⟩ := writer_isolated vplan hvnodup _ hop0v
          have hnot : ∀ op' ∈ t,
              opIsTag op' = true ∨ op'.restFieldOf ≠ rf := by
            intro op' h'
            exact Or.inr (by simpa [UpdateOp.restFieldOf] using hiso op' h')
          have hlook : item1.scalarAttrs.lookup rf
              = some (some (pyStrip (pyStrOfNfo p.2))) := by
            rw [hitem1, hst]
            exact applyPlan_scalar_writer item s t rf _ cur0 hnot
          apply hvo
          rw [hv, ho, hlook]
          show pyStrip (pyStrOfNfo p.2)
            = pyStrip (pyStrip (pyStrOfNfo p.2))
          rw [pyStrip_idem]
        · -- the edit was dropped: the attribute is absent in both runs
          have hnow : ∀ op' ∈ vplan,
              opIsTag op' = true ∨ op'.restFieldOf ≠ rf := by
            intro op' hop'
            by_cases hrf' : op'.restFieldOf = rf
            · exfalso
              have h' := plan_writer_eq a item nfo hnd p hp rf false hlk1 op'
                (hvsub op' hop') hrf'
              rw [hop0] at h'
              have hop'eq := Option.some.inj h'
              have hk := ((mem_validated item _ op').1 hop').2
              rw [← hop'eq] at hk
              exact hkeep0 hk
            · exact Or.inr hrf'
          have heq : item1.scalarAttrs.lookup rf
              = item.scalarAttrs.lookup rf := by
            rw [hitem1]
            exact applyPlan_keeps_scalar vplan item rf hnow
          have habs : (item.scalarAttrs.lookup rf).isNone = true := by
            by_contra habs'
            exact hkeep0 (by simp [keepOp, Option.isNone_iff_eq_none] at habs' ⊢; simp [habs'])
          have hk1f : keepOp item1 (UpdateOp.field rf v o) = false := by
            simp [keepOp, heq, habs]
          rw [hk1f] at hkeep1
          cases hkeep1
  | tag rf new ex =>
    obtain ⟨hlk1, hemp, hnew, hex, hnempty⟩ :=
      planEntry_inv a item1 p (UpdateOp.tag rf new ex) hpe1
    simp only [UpdateOp.restFieldOf, opIsTag] at hlk1
    set R := refineTags (dedupCI [] (collectTagNames p.2)) with hR
    have hRprops : ∀ t ∈ R, pyStrip t = t ∧ t ≠ "" := by
      intro t ht
      have hmem := (refineTags_sublist _).subset ht
      have hspec := (dedupCI_spec (collectTagNames p.2) []).1 t hmem
      exact ⟨hspec.1, hspec.2.1⟩
    have hRpair : R.Pairwise (fun x y => pyLowerS x ≠ pyLowerS y) :=
      ((dedupCI_spec (collectTagNames p.2) []).2).sublist
        (refineTags_sublist _)
    have hfirst := planEntry_tag_eq a item p rf hlk1 hemp
    have hRne : R ≠ [] := by rw [← hnew] at *; exact hnempty
    have hdne : dedupCI [] (collectTagNames p.2) ≠ [] := by
      intro hd
      apply hRne
      rw [hR, hd]
      rfl
    have hop0 : planEntry a item p = some (UpdateOp.tag rf R
        (dedupLower []
          (extractExisting (((item.tagAttrs.lookup rf).join).getD [])))) := by
      rw [hfirst, if_neg hdne, if_neg (by rw [← hR]; exact hRne)]
    have hop0p : UpdateOp.tag rf R
        (dedupLower []
          (extractExisting (((item.tagAttrs.lookup rf).join).getD [])))
        ∈ planOps a item nfo := List.mem_filterMap.2 ⟨p, hp, hop0⟩
    by_cases hkeep0 : keepOp item (UpdateOp.tag rf R
        (dedupLower []
          (extractExisting (((item.tagAttrs.lookup rf).join).getD []))))
        = true
    · -- the tag replacement was applied: existing now equals new
      have hop0v : _ ∈ vplan := (mem_validated item _ _).2 ⟨hop0p, hkeep0⟩
      obtain ⟨s, t, hst, hiso⟩ := writer_isolated vplan hvnodup _ hop0v
      have hnot : ∀ op' ∈ t,
          opIsTag op' = false ∨ op'.restFieldOf ≠ rf := by
        intro op' h'
        exact Or.inr (by simpa [UpdateOp.restFieldOf] using hiso op' h')
      have hlook : item1.tagAttrs.lookup rf
          = some (some (R.map TagEntry.str)) := by
        rw [hitem1, hst]
        exact applyPlan_tag_writer item s t rf _ _ hnot
      have hexR : ex = R := by
        rw [hex, hlook]
        show dedupLower [] (extractExisting (R.map TagEntry.str)) = R
        rw [extractExisting_str R hRprops]
        exact dedupLower_id R [] (fun u _ => List.not_mem_nil _) hRpair
      exact ⟨rf, R, by rw [hnew, hexR]⟩
    · -- dropped: plural and singular both absent, in both runs, so the
      -- second-run validation would have dropped this op too
      exfalso
      have hnoplural : ∀ op' ∈ vplan,
          opIsTag op' = false ∨ op'.restFieldOf ≠ rf := by
        intro op' hop'
        by_cases hrf' : op'.restFieldOf = rf
        · exfalso
          have h' := plan_writer_eq a item nfo hnd p hp rf true hlk1 op'
            (hvsub op' hop') hrf'
          rw [hop0] at h'
          have hop'eq := Option.some.inj h'
          have hk := ((mem_validated item _ op').1 hop').2
          rw [← hop'eq] at hk
          exact hkeep0 hk
        · exact Or.inr hrf'
      have heqp : item1.tagAttrs.lookup rf = item.tagAttrs.lookup rf := by
        rw [hitem1]
        exact applyPlan_keeps_tag vplan item rf hnoplural
      have hnosing : ∀ op' ∈ vplan,
          opIsTag op' = false ∨ op'.restFieldOf ≠ rstripS rf := by
        intro op' hop'
        cases hT : opIsTag op' with
        | false => exact Or.inl rfl
        | true =>
          refine Or.inr ?_
          obtain ⟨q, hq, hpeq⟩ := List.mem_filterMap.1 (hvsub op' hop')
          have h1 := (planEntry_inv a item q op' hpeq).1
          obtain ⟨kx, hkx⟩ := lookup_mem _ _ _ h1
          obtain ⟨kp, hkp⟩ := lookup_mem _ _ _ hlk1
          exact rstrip_not_restfield _ hkx _ hkp rfl
      have heqs : item1.tagAttrs.lookup (rstripS rf)
          = item.tagAttrs.lookup (rstripS rf) := by
        rw [hitem1]
        exact applyPlan_keeps_tag vplan item (rstripS rf) hnosing
      have hks : (item.tagAttrs.lookup rf).isNone = true ∧
          (item.tagAttrs.lookup (rstripS rf)).isNone = true := by
        have hkfalse : keepOp item (UpdateOp.tag rf R
            (dedupLower [] (extractExisting
              (((item.tagAttrs.lookup rf).join).getD [])))) = false :=
          Bool.eq_false_iff.mpr hkeep0
        cases h1 : (item.tagAttrs.lookup rf).isNone with
        | false => simp [keepOp, h1] at hkfalse
        | true =>
          cases h2 : (item.tagAttrs.lookup (rstripS rf)).isNone with
          | false => simp [keepOp, h1, h2] at hkfalse
          | true => exact ⟨rfl, rfl⟩
      have hk1f : keepOp item1 (UpdateOp.tag rf new ex) = false := by
        simp [keepOp, heqp, heqs, hks.1, hks.2]
      rw [hk1f] at hkeep1
      cases hkeep1

/-- A one-field record used to exercise the planner: a genres value
already present on the entity. -/
def nfoC2 : List (String × NfoValue) := [("genres", NfoValue.str "Action")]

/-- An entity already carrying exactly the genre of `nfoC2`. -/
def itemC2 : PlexItem :=
  { tagAttrs := [("genres", some [TagEntry.str "Action"])] }

/-- C2 (counterexample to the claim as stated): with record
genres = Action and an entity whose genres collection already equals
the planned new-tag set, the first validated plan is a single tag
operation, the entity state after applying it holds exactly the
planned tags — and the second validated plan is that same non-empty
tag operation again, not the empty plan. -/
theorem tag_plan_not_idempotent :
    (validateOps itemC2 (planOps true itemC2 nfoC2)).1
      = [UpdateOp.tag "genres" ["Action"] ["Action"]] ∧
    (applyPlan itemC2
      (validateOps itemC2 (planOps true itemC2 nfoC2)).1).tagAttrs.lookup
        "genres" = some (some [TagEntry.str "Action"]) ∧
    (validateOps
        (applyPlan itemC2 (validateOps itemC2 (planOps true itemC2 nfoC2)).1)
        (planOps true
          (applyPlan itemC2
            (validateOps itemC2 (planOps true itemC2 nfoC2)).1)
          nfoC2)).1
      = [UpdateOp.tag "genres" ["Action"] ["Action"]] ∧
    (validateOps
        (applyPlan itemC2 (validateOps itemC2 (planOps true itemC2 nfoC2)).1)
        (planOps true
          (applyPlan itemC2
            (validateOps itemC2 (planOps true itemC2 nfoC2)).1)
          nfoC2)).1 ≠ [] := by
  refine ⟨by decide, by decide, by decide, by decide⟩

/-- C2 (witness for the amended claim): the record `nfoC2` has
pairwise distinct remote fields, and the operation of the second
validated plan is a tag operation with new tags equal to existing
tags. -/
theorem second_plan_tagops_only_witness :
    (restFieldsOf nfoC2).Nodup ∧
    (∃ rf ts, UpdateOp.tag "genres" ["Action"] ["Action"]
      = UpdateOp.tag rf ts ts) := by
  refine ⟨by decide, ?_⟩
  exact second_plan_tagops_only true itemC2 nfoC2 (by decide)
    (UpdateOp.tag "genres" ["Action"] ["Action"]) (by decide)

end PlexNfo
